import Mathlib

/-!
Verification development for the Lagos Accessibility Model core
(`data_processing.py`, `map_utils.py`).

Travel times, attribute values and quantiles are modelled as exact
rationals (`ℚ`); zone and node identifiers as integers (`ℤ`).  Pandas
data frames are modelled as lists of rows; `groupby` is modelled by
listing the distinct keys and aggregating the rows sharing each key,
and `merge` by the list-level product of matching rows.
-/

namespace Lagos

/-- A row of a zone-level skim: `(origin_zone, destination_zone, travel_time)`.
Mirrors the frames produced by `load_base_skim` / `load_uploaded_skim`
(`data_processing.py` lines 204-207, 304-310). -/
structure SkimRow where
  origin_zone : ℤ
  destination_zone : ℤ
  travel_time : ℚ
deriving DecidableEq

abbrev Skim := List SkimRow

/-- The `(origin_zone, destination_zone)` key used by the aggregation groupby. -/
def pairKey (r : SkimRow) : ℤ × ℤ := (r.origin_zone, r.destination_zone)

/-- Association lookup, first matching key wins.  Models reading a value out
of a keyed pandas frame. -/
def assoc? {α β : Type} [DecidableEq α] : List (α × β) → α → Option β
  | [], _ => none
  | (k, v) :: t, a => if a = k then some v else assoc? t a

/-- Read an accessibility value for an origin zone, treating an absent origin
as `0` — the left-join-with-fillna contract the spec imposes on callers. -/
def lookupD (l : List (ℤ × ℚ)) (k : ℤ) : ℚ := (assoc? l k).getD 0

/-- Read a band count for an origin zone, absent origins read as `0`. -/
def lookupN (l : List (ℤ × ℕ)) (k : ℤ) : ℕ := (assoc? l k).getD 0

/-- `df.groupby(key)[col].sum()`: one output row per distinct key, carrying
the sum of the values of the rows with that key. -/
def groupSum (l : List (ℤ × ℚ)) : List (ℤ × ℚ) :=
  (l.map Prod.fst).dedup.map
    (fun k => (k, ((l.filter (fun p => p.1 = k)).map Prod.snd).sum))

/-- The filtered-skim/zone-table inner join of `calculate_accessibility`
(`data_processing.py` lines 320-328): keep skim rows with
`travel_time <= time_limit` and pair each with the attribute value of every
zone-table row whose `ZONE_ID` equals its destination zone. -/
def accJoin (skim : Skim) (zones : List (ℤ × ℚ)) (time_limit : ℤ) :
    List (ℤ × ℚ) :=
  (skim.filter (fun r => r.travel_time ≤ (time_limit : ℚ))).flatMap (fun r =>
    (zones.filter (fun z => z.1 = r.destination_zone)).map
      (fun z => (r.origin_zone, z.2)))

/-- `calculate_accessibility` (`data_processing.py` lines 316-331):
filter the skim to `travel_time <= time_limit`, inner-join destination zones
with the zone table (`zones` lists `(ZONE_ID, attribute value)` pairs),
then group by origin zone and sum the attribute values. -/
def calculate_accessibility (skim : Skim) (zones : List (ℤ × ℚ))
    (time_limit : ℤ) : List (ℤ × ℚ) :=
  groupSum (accJoin skim zones time_limit)

/-- Attribute value of a destination zone; a zone absent from the zone table
contributes `0` (the spec's "missing attribute values are treated as zero"). -/
def attrOf (zones : List (ℤ × ℚ)) (d : ℤ) : ℚ := (assoc? zones d).getD 0

/-- The C1/C5 example skim: `[(1,2,10.0),(1,3,20.0),(2,1,10.0)]`. -/
def skimEx : Skim := [⟨1, 2, 10⟩, ⟨1, 3, 20⟩, ⟨2, 1, 10⟩]

/-- The C1/C5 example zone attribute `jobs = {1:100, 2:200, 3:300}`. -/
def zonesEx : List (ℤ × ℚ) := [(1, 100), (2, 200), (3, 300)]

/-! ### Generic lemmas about `assoc?`, grouping and joins -/

theorem assoc?_keyed {β : Type} (g : ℤ → β) (k : ℤ) :
    ∀ ks : List ℤ,
      assoc? (ks.map (fun x => (x, g x))) k =
        if k ∈ ks then some (g k) else none := by
  intro ks
  induction ks with
  | nil => simp [assoc?]
  | cons a t ih =>
    by_cases h : k = a
    · subst h; simp [assoc?]
    · simp [assoc?, h, ih, List.mem_cons]

theorem filter_eq_nil_of_not_mem_keys {α β : Type} [DecidableEq α]
    (l : List (α × β)) (k : α) (h : k ∉ l.map Prod.fst) :
    l.filter (fun p => p.1 = k) = [] := by
  apply List.filter_eq_nil_iff.mpr
  intro p hp
  simp only [decide_eq_true_eq]
  intro hk
  exact h (List.mem_map.mpr ⟨p, hp, hk⟩)

theorem lookupD_groupSum (l : List (ℤ × ℚ)) (k : ℤ) :
    lookupD (groupSum l) k =
      ((l.filter (fun p => p.1 = k)).map Prod.snd).sum := by
  unfold lookupD groupSum
  rw [assoc?_keyed]
  by_cases h : k ∈ (l.map Prod.fst).dedup
  · simp [h]
  · have hk : k ∉ l.map Prod.fst := fun hm => h (List.mem_dedup.mpr hm)
    rw [if_neg h, filter_eq_nil_of_not_mem_keys l k hk]
    simp

theorem filter_flatMap_keyed {α β : Type} (l : List α) (f : α → List β)
    (p : β → Bool) (key : α → ℤ) (o : ℤ)
    (hf : ∀ a, ∀ b ∈ f a, (p b = true ↔ key a = o)) :
    (l.flatMap f).filter p = (l.filter (fun a => key a = o)).flatMap f := by
  induction l with
  | nil => rfl
  | cons a t ih =>
    simp only [List.flatMap_cons, List.filter_append, List.filter_cons, ih]
    by_cases h : key a = o
    · have hall : (f a).filter p = f a := by
        apply List.filter_eq_self.mpr
        intro b hb
        exact (hf a b hb).mpr h
      simp [h, hall]
    · have hnil : (f a).filter p = [] := by
        apply List.filter_eq_nil_iff.mpr
        intro b hb hpb
        exact h ((hf a b hb).mp hpb)
      simp [h, hnil]

theorem sum_map_flatMap {α β : Type} (l : List α) (f : α → List β)
    (g : β → ℚ) :
    ((l.flatMap f).map g).sum = (l.map (fun a => ((f a).map g).sum)).sum := by
  induction l with
  | nil => rfl
  | cons a t ih => simp [List.flatMap_cons, ih]

/-- With a duplicate-free zone id column, the inner-join contribution of one
destination zone is exactly its (zero-defaulted) attribute value. -/
theorem sum_filter_zones (zones : List (ℤ × ℚ))
    (hz : (zones.map Prod.fst).Nodup) (d : ℤ) :
    ((zones.filter (fun z => z.1 = d)).map Prod.snd).sum = attrOf zones d := by
  induction zones with
  | nil => simp [attrOf, assoc?]
  | cons a t ih =>
    simp only [List.map_cons, List.nodup_cons] at hz
    by_cases h : a.1 = d
    · have ht : t.filter (fun z => z.1 = d) = [] := by
        apply filter_eq_nil_of_not_mem_keys
        rw [h] at hz
        exact hz.1
      rw [List.filter_cons_of_pos (by simp [h]), ht]
      simp [attrOf, assoc?, h.symm]
    · rw [List.filter_cons_of_neg (by simp [h])]
      rw [ih hz.2]
      have h' : ¬(d = a.1) := fun e => h e.symm
      simp [attrOf, assoc?, h']

/-- Rows of a skim with duplicate-free `(origin, destination)` pairs that
share one origin have duplicate-free destination columns. -/
theorem nodup_dest_of_nodup_pairs (skim : Skim)
    (hp : (skim.map pairKey).Nodup) (o : ℤ) (q : SkimRow → Bool)
    (hq : ∀ r, q r = true → r.origin_zone = o) :
    ((skim.filter q).map (fun r => r.destination_zone)).Nodup := by
  have hsub : (skim.filter q).Sublist skim := List.filter_sublist skim
  have hnp : ((skim.filter q).map pairKey).Nodup := (hsub.map pairKey).nodup hp
  have hrw : ((skim.filter q).map (fun r => r.destination_zone)) =
      ((skim.filter q).map pairKey).map Prod.snd := by
    simp [List.map_map, pairKey, Function.comp]
  rw [hrw]
  apply hnp.map_on
  intro x hx y hy hxy
  obtain ⟨rx, hrx, rfl⟩ := List.mem_map.mp hx
  obtain ⟨ry, hry, rfl⟩ := List.mem_map.mp hy
  have hox : rx.origin_zone = o := hq rx (List.of_mem_filter hrx)
  have hoy : ry.origin_zone = o := hq ry (List.of_mem_filter hry)
  simp only [pairKey] at hxy ⊢
  exact Prod.ext (by rw [hox, hoy]) hxy

/-- Core characterisation of `calculate_accessibility`: reading the result
with zero-fill for absent origins, every zone `o` gets the sum, over the
distinct destination zones reachable from `o` within the limit, of that
destination's attribute value. -/
theorem calculate_accessibility_lookup (skim : Skim) (zones : List (ℤ × ℚ))
    (T : ℤ) (hz : (zones.map Prod.fst).Nodup)
    (hp : (skim.map pairKey).Nodup) (o : ℤ) :
    lookupD (calculate_accessibility skim zones T) o =
      ((((skim.filter
          (fun r => r.origin_zone = o ∧ r.travel_time ≤ (T : ℚ))).map
          (fun r => r.destination_zone)).dedup).map (attrOf zones)).sum := by
  unfold calculate_accessibility accJoin
  rw [lookupD_groupSum]
  rw [filter_flatMap_keyed _ _ _ (fun r => r.origin_zone) o
    (by
      intro a b hb
      obtain ⟨z, _, rfl⟩ := List.mem_map.mp hb
      simp)]
  rw [sum_map_flatMap]
  have hfilter :
      (skim.filter (fun r => r.travel_time ≤ (T : ℚ))).filter
          (fun r => r.origin_zone = o) =
        skim.filter (fun r => r.origin_zone = o ∧ r.travel_time ≤ (T : ℚ)) := by
    rw [List.filter_filter]
    congr 1
    funext r
    by_cases h1 : r.origin_zone = o <;> by_cases h2 : r.travel_time ≤ (T : ℚ) <;>
      simp [h1, h2]
  rw [hfilter]
  have hdedup :
      ((skim.filter
          (fun r => r.origin_zone = o ∧ r.travel_time ≤ (T : ℚ))).map
          (fun r => r.destination_zone)).dedup =
        (skim.filter
          (fun r => r.origin_zone = o ∧ r.travel_time ≤ (T : ℚ))).map
          (fun r => r.destination_zone) := by
    apply List.dedup_eq_self.mpr
    apply nodup_dest_of_nodup_pairs skim hp o
    intro r h
    exact (of_decide_eq_true h).1
  rw [hdedup, List.map_map]
  congr 1
  apply List.map_congr_left
  intro r _
  simpa [Function.comp, List.map_map] using
    sum_filter_zones zones hz r.destination_zone

/-- C1: for every origin zone, `calculate_accessibility` (with absent origins
read as 0 per the spec's merge contract) returns the sum of the attribute over
the distinct destination zones whose travel time is `<= time_limit` (threshold
inclusive); and on the spec's concrete scenario
skim = [(1,2,10),(1,3,20),(2,1,10)], jobs = {1:100,2:200,3:300}, limit 15,
zone 1 gets 200 and zone 2 gets 100. -/
theorem claim_C1 :
    (∀ (skim : Skim) (zones : List (ℤ × ℚ)) (T : ℤ),
        (zones.map Prod.fst).Nodup → (skim.map pairKey).Nodup →
        ∀ o : ℤ,
          lookupD (calculate_accessibility skim zones T) o =
            ((((skim.filter
                (fun r => r.origin_zone = o ∧ r.travel_time ≤ (T : ℚ))).map
                (fun r => r.destination_zone)).dedup).map (attrOf zones)).sum) ∧
    lookupD (calculate_accessibility skimEx zonesEx 15) 1 = 200 ∧
    lookupD (calculate_accessibility skimEx zonesEx 15) 2 = 100 := by
  refine ⟨fun skim zones T hz hp o =>
    calculate_accessibility_lookup skim zones T hz hp o, ?_, ?_⟩ <;>
    norm_num [calculate_accessibility, accJoin, groupSum, lookupD, assoc?,
      skimEx, zonesEx]

/-- Witness for C1: the general part applied to the concrete scenario. -/
theorem claim_C1_witness :
    lookupD (calculate_accessibility skimEx zonesEx 15) 1 =
      (((skimEx.filter
          (fun r => r.origin_zone = 1 ∧ r.travel_time ≤ ((15 : ℤ) : ℚ))).map
          (fun r => r.destination_zone)).dedup.map (attrOf zonesEx)).sum :=
  claim_C1.1 skimEx zonesEx 15 (by decide) (by decide) 1

/-! ### C5: monotonicity in the time threshold -/

theorem sublist_flatMap {α β : Type} {l₁ l₂ : List α} (h : l₁.Sublist l₂)
    (f : α → List β) : (l₁.flatMap f).Sublist (l₂.flatMap f) := by
  induction h with
  | slnil => simp
  | cons a _ ih =>
    exact ih.trans (List.sublist_append_right _ _)
  | cons₂ a _ ih =>
    simpa using (List.Sublist.refl (f a)).append ih

theorem filter_sublist_of_imp {α : Type} (l : List α) (p q : α → Bool)
    (h : ∀ a ∈ l, p a = true → q a = true) :
    (l.filter p).Sublist (l.filter q) := by
  induction l with
  | nil => simp
  | cons a t ih =>
    have iht := ih (fun x hx => h x (List.mem_cons_of_mem a hx))
    by_cases hp : p a = true
    · rw [List.filter_cons_of_pos hp,
        List.filter_cons_of_pos (h a (List.mem_cons_self a t) hp)]
      exact iht.cons₂ a
    · rw [List.filter_cons_of_neg (by simpa using hp)]
      by_cases hq : q a = true
      · rw [List.filter_cons_of_pos hq]
        exact iht.trans (List.sublist_cons_self a _)
      · rw [List.filter_cons_of_neg (by simpa using hq)]
        exact iht

/-- C5: for a fixed skim and zone table with non-negative attribute values,
`accessible_value` (absent origins read as 0) is monotone non-decreasing in
the time threshold. -/
theorem claim_C5 (skim : Skim) (zones : List (ℤ × ℚ)) (T1 T2 : ℤ)
    (hnn : ∀ p ∈ zones, 0 ≤ p.2) (hT : T1 ≤ T2) (o : ℤ) :
    lookupD (calculate_accessibility skim zones T1) o ≤
      lookupD (calculate_accessibility skim zones T2) o := by
  unfold calculate_accessibility
  rw [lookupD_groupSum, lookupD_groupSum]
  apply List.Sublist.sum_le_sum
  · apply List.Sublist.map
    apply List.Sublist.filter
    unfold accJoin
    apply sublist_flatMap
    apply filter_sublist_of_imp
    intro r _ h1
    have h1' := of_decide_eq_true h1
    exact decide_eq_true (le_trans h1' (by exact_mod_cast hT))
  · intro a ha
    obtain ⟨pr, hpr, rfl⟩ := List.mem_map.mp ha
    have hpr' := List.mem_of_mem_filter hpr
    unfold accJoin at hpr'
    obtain ⟨r, _, hm⟩ := List.mem_flatMap.mp hpr'
    obtain ⟨z, hz, rfl⟩ := List.mem_map.mp hm
    exact hnn z (List.mem_of_mem_filter hz)

/-- Witness for C5 at the concrete scenario, thresholds 10 ≤ 15, origin 1. -/
theorem claim_C5_witness :
    lookupD (calculate_accessibility skimEx zonesEx 10) 1 ≤
      lookupD (calculate_accessibility skimEx zonesEx 15) 1 :=
  claim_C5 skimEx zonesEx 10 15 (by decide) (by decide) 1

/-! ### C2 and C9: the Skim Aggregator -/

/-- A row of a raw node-level skim, after the numeric cleaning step:
`(origin_node, destination_node, travel_time)`
(`data_processing.py` lines 162-178, 266-284). -/
structure RawRow where
  origin_node : ℤ
  destination_node : ℤ
  travel_time : ℚ
deriving DecidableEq

/-- Mean of a list of travel times, as computed by pandas
`groupby(...)["travel_time"].mean()` on a non-empty group. -/
def mean (l : List ℚ) : ℚ := l.sum / l.length

/-- The two inner merges of the Skim Aggregator
(`data_processing.py` lines 186-197, 286-297): translate `origin_node` and
then `destination_node` through the node→zone mapping, keeping one output
row per pair of matching mapping rows; a row whose endpoint has no match in
the mapping contributes nothing. The subsequent
`dropna(subset=["origin_zone","destination_zone"])` is a no-op after the two
inner merges and is therefore not modelled as a separate step. -/
def mapNodes (raw : List RawRow) (mapping : List (ℤ × ℤ)) : Skim :=
  raw.flatMap (fun r =>
    (mapping.filter (fun m => m.1 = r.origin_node)).flatMap (fun m1 =>
      (mapping.filter (fun m => m.1 = r.destination_node)).map (fun m2 =>
        ⟨m1.2, m2.2, r.travel_time⟩)))

/-- The Skim Aggregator (`load_base_skim` lines 180-207 and
`load_uploaded_skim` lines 286-310 share this pipeline): translate node ids
to zone ids, then `groupby(["origin_zone","destination_zone"]).mean()`.
The function is total: rows referencing unmapped nodes are dropped by the
merges, never reported as an error. -/
def aggregateSkim (raw : List RawRow) (mapping : List (ℤ × ℤ)) : Skim :=
  ((mapNodes raw mapping).map pairKey).dedup.map (fun p =>
    ⟨p.1, p.2,
      mean (((mapNodes raw mapping).filter
        (fun r => pairKey r = p)).map (fun r => r.travel_time))⟩)

theorem filter_keys_nodup (mapping : List (ℤ × ℤ))
    (hm : (mapping.map Prod.fst).Nodup) (n : ℤ) :
    mapping.filter (fun x => x.1 = n) =
      (assoc? mapping n).elim [] (fun z => [(n, z)]) := by
  induction mapping with
  | nil => rfl
  | cons a t ih =>
    simp only [List.map_cons, List.nodup_cons] at hm
    by_cases h : a.1 = n
    · rw [List.filter_cons_of_pos (by simp [h])]
      have ht : t.filter (fun x => x.1 = n) = [] := by
        apply filter_eq_nil_of_not_mem_keys
        rw [h] at hm
        exact hm.1
      rw [ht]
      have : assoc? (a :: t) n = some a.2 := by
        simp [assoc?, h.symm]
      rw [this]
      simp [← h]
    · rw [List.filter_cons_of_neg (by simp [h])]
      rw [ih hm.2]
      have h' : ¬(n = a.1) := fun e => h e.symm
      simp [assoc?, h']

/-- Under a duplicate-free node→zone mapping, the two inner merges translate
each raw row whose endpoints both resolve, and drop every other row. -/
theorem mapNodes_eq_filterMap (raw : List RawRow) (mapping : List (ℤ × ℤ))
    (hm : (mapping.map Prod.fst).Nodup) :
    mapNodes raw mapping = raw.flatMap (fun r =>
      match assoc? mapping r.origin_node, assoc? mapping r.destination_node with
      | some zo, some zd => [⟨zo, zd, r.travel_time⟩]
      | _, _ => []) := by
  induction raw with
  | nil => rfl
  | cons r t ih =>
    simp only [mapNodes] at ih ⊢
    simp only [List.flatMap_cons]
    rw [ih]
    congr 1
    rw [filter_keys_nodup mapping hm r.origin_node,
      filter_keys_nodup mapping hm r.destination_node]
    rcases assoc? mapping r.origin_node with _ | zo <;>
      rcases assoc? mapping r.destination_node with _ | zd <;> simp

/-- The travel times grouped under one zone pair are exactly the travel times
of the raw rows whose endpoints resolve to that pair. -/
theorem mapped_filter_times (raw : List RawRow) (mapping : List (ℤ × ℤ))
    (hm : (mapping.map Prod.fst).Nodup) (p : ℤ × ℤ) :
    ((mapNodes raw mapping).filter (fun r => pairKey r = p)).map
        (fun r => r.travel_time) =
      (raw.filter (fun r =>
        assoc? mapping r.origin_node = some p.1 ∧
        assoc? mapping r.destination_node = some p.2)).map
        (fun r => r.travel_time) := by
  rw [mapNodes_eq_filterMap raw mapping hm]
  induction raw with
  | nil => rfl
  | cons r t ih =>
    simp only [List.flatMap_cons, List.filter_append, List.map_append, ih]
    rcases ho : assoc? mapping r.origin_node with _ | zo <;>
      rcases hd : assoc? mapping r.destination_node with _ | zd
    · simp [List.filter_cons, ho, hd]
    · simp [List.filter_cons, ho, hd]
    · simp [List.filter_cons, ho, hd]
    · by_cases hp : (zo, zd) = p
      · have h1 : zo = p.1 := by rw [← hp]
        have h2 : zd = p.2 := by rw [← hp]
        simp [List.filter_cons, ho, hd, pairKey, hp, h1, h2]
      · have h12 : ¬(zo = p.1 ∧ zd = p.2) := by
          intro ⟨h1, h2⟩
          exact hp (by rw [h1, h2])
        have hpk : ¬((zo, zd) = p) := hp
        simp [List.filter_cons, pairKey, hpk, h12, ho, hd]

/-- C2: for every raw skim and duplicate-free node→zone mapping, the
aggregated zone-level skim has at most one row per (origin_zone,
destination_zone) pair, and that row's travel time is the arithmetic mean of
the travel times of the raw rows whose endpoints map to that pair. -/
theorem claim_C2 (raw : List RawRow) (mapping : List (ℤ × ℤ))
    (hm : (mapping.map Prod.fst).Nodup) :
    ((aggregateSkim raw mapping).map pairKey).Nodup ∧
    ∀ row ∈ aggregateSkim raw mapping,
      row.travel_time = mean ((raw.filter (fun r =>
        assoc? mapping r.origin_node = some row.origin_zone ∧
        assoc? mapping r.destination_node = some row.destination_zone)).map
        (fun r => r.travel_time)) := by
  constructor
  · have h1 : (aggregateSkim raw mapping).map pairKey =
        ((mapNodes raw mapping).map pairKey).dedup := by
      unfold aggregateSkim
      rw [List.map_map]
      conv_rhs => rw [← List.map_id (((mapNodes raw mapping).map pairKey).dedup)]
      apply List.map_congr_left
      intro p _
      rfl
    rw [h1]
    exact List.nodup_dedup _
  · intro row hrow
    unfold aggregateSkim at hrow
    obtain ⟨p, hp, rfl⟩ := List.mem_map.mp hrow
    show mean (((mapNodes raw mapping).filter (fun r => pairKey r = p)).map
      (fun r => r.travel_time)) = _
    rw [mapped_filter_times raw mapping hm p]

/-- Witness for C2: a concrete aggregation where nodes 1 and 2 share zone 10,
node 3 is zone 20, and node 99 is unmapped. -/
theorem claim_C2_witness :
    ((aggregateSkim [⟨1, 3, 4⟩, ⟨2, 3, 6⟩, ⟨99, 1, 5⟩]
        [(1, 10), (2, 10), (3, 20)]).map pairKey).Nodup ∧
    ∀ row ∈ aggregateSkim [⟨1, 3, 4⟩, ⟨2, 3, 6⟩, ⟨99, 1, 5⟩]
        [(1, 10), (2, 10), (3, 20)],
      row.travel_time = mean ((([⟨1, 3, 4⟩, ⟨2, 3, 6⟩, ⟨99, 1, 5⟩] :
          List RawRow).filter (fun r =>
        assoc? [(1, 10), (2, 10), (3, 20)] r.origin_node =
          some row.origin_zone ∧
        assoc? [(1, 10), (2, 10), (3, 20)] r.destination_node =
          some row.destination_zone)).map (fun r => r.travel_time)) :=
  claim_C2 [⟨1, 3, 4⟩, ⟨2, 3, 6⟩, ⟨99, 1, 5⟩] [(1, 10), (2, 10), (3, 20)]
    (by decide)

theorem flatMap_const_nil {α β : Type} (l : List α) :
    (l.flatMap (fun _ => ([] : List β))) = [] := by
  induction l with
  | nil => rfl
  | cons a t ih => simp [List.flatMap_cons, ih]

/-- Rows whose origin or destination node is absent from the mapping
contribute nothing to the node→zone translation. -/
theorem mapNodes_drop_unmapped (raw : List RawRow) (mapping : List (ℤ × ℤ)) :
    mapNodes raw mapping =
      mapNodes (raw.filter (fun r =>
        r.origin_node ∈ mapping.map Prod.fst ∧
        r.destination_node ∈ mapping.map Prod.fst)) mapping := by
  induction raw with
  | nil => rfl
  | cons r t ih =>
    simp only [mapNodes] at ih ⊢
    simp only [List.flatMap_cons, List.filter_cons]
    by_cases h1 : r.origin_node ∈ mapping.map Prod.fst
    · by_cases h2 : r.destination_node ∈ mapping.map Prod.fst
      · rw [if_pos (by simp [h1, h2])]
        simp only [List.flatMap_cons]
        rw [ih]
      · rw [if_neg (by simp [h2])]
        have hin : mapping.filter (fun m => m.1 = r.destination_node) = [] :=
          filter_eq_nil_of_not_mem_keys mapping r.destination_node h2
        rw [hin, ih]
        simp [flatMap_const_nil]
    · rw [if_neg (by simp [h1])]
      have hin : mapping.filter (fun m => m.1 = r.origin_node) = [] :=
        filter_eq_nil_of_not_mem_keys mapping r.origin_node h1
      rw [hin, ih]
      simp

/-- C9: skim rows whose origin or destination node is absent from the
node→zone mapping are excluded from the aggregated zone-level skim (the
aggregator is a total function, so no exception is raised); in particular,
with node 99 unmapped, the row (99, 1, 5.0) is silently dropped and the
remaining row (1, 2, 7.0) aggregates to zones (10, 20) with time 7. -/
theorem claim_C9 :
    (∀ (raw : List RawRow) (mapping : List (ℤ × ℤ)),
      aggregateSkim raw mapping =
        aggregateSkim (raw.filter (fun r =>
          r.origin_node ∈ mapping.map Prod.fst ∧
          r.destination_node ∈ mapping.map Prod.fst)) mapping) ∧
    aggregateSkim [⟨99, 1, 5⟩, ⟨1, 2, 7⟩] [(1, 10), (2, 20)] =
      [⟨10, 20, 7⟩] := by
  constructor
  · intro raw mapping
    unfold aggregateSkim
    rw [← mapNodes_drop_unmapped raw mapping]
  · norm_num [aggregateSkim, mapNodes, mean, pairKey, List.filter_cons,
      List.dedup_cons_of_mem, List.dedup_cons_of_not_mem, assoc?]

/-! ### C3 and C4: the Time-Band Calculator -/

/-- `df.groupby("origin_zone").size()`: one output row per distinct origin,
carrying the number of rows with that origin. -/
def groupSize (l : Skim) : List (ℤ × ℕ) :=
  (l.map (fun r => r.origin_zone)).dedup.map
    (fun k => (k, (l.filter (fun r => r.origin_zone = k)).length))

/-- Sort key of the `sort_values("travel_time")` pre-sorting step. -/
def sortLe (a b : SkimRow) : Bool := decide (a.travel_time ≤ b.travel_time)

/-- `lower_limit = (i - 1) * time_band if i > 1 else 0`
(`data_processing.py` line 342). -/
def lowerB (i : ℕ) (time_band : ℤ) : ℤ :=
  if 1 < i then ((i : ℤ) - 1) * time_band else 0

/-- `upper_limit = i * time_band` (`data_processing.py` line 341). -/
def upperB (i : ℕ) (time_band : ℤ) : ℤ := (i : ℤ) * time_band

/-- The band-i row filter `lower_limit < travel_time <= upper_limit` applied
to the pre-sorted skim (`data_processing.py` lines 338, 345-346). -/
def bandFilter (skim : Skim) (time_band : ℤ) (i : ℕ) : Skim :=
  (skim.mergeSort sortLe).filter (fun r =>
    ((lowerB i time_band : ℤ) : ℚ) < r.travel_time ∧
    r.travel_time ≤ ((upperB i time_band : ℤ) : ℚ))

/-- One entry of the result dict of `calculate_time_band_accessibility`:
the band boundaries together with the per-origin row counts
(`data_processing.py` lines 340-351).  The dict key `zones_{lo}_{hi}` is
modelled by carrying `(lower, upper)` explicitly. -/
def bandEntry (skim : Skim) (time_band : ℤ) (i : ℕ) :
    ℤ × ℤ × List (ℤ × ℕ) :=
  (lowerB i time_band, upperB i time_band,
    groupSize (bandFilter skim time_band i))

/-- `calculate_time_band_accessibility` (`data_processing.py` lines 333-353):
five bands, `i = 1..5`. -/
def calculate_time_band_accessibility (skim : Skim) (time_band : ℤ) :
    List (ℤ × ℤ × List (ℤ × ℕ)) :=
  (List.range 5).map (fun j => bandEntry skim time_band (j + 1))

theorem lookupN_groupSize (l : Skim) (k : ℤ) :
    lookupN (groupSize l) k = (l.filter (fun r => r.origin_zone = k)).length := by
  unfold lookupN groupSize
  rw [assoc?_keyed]
  by_cases h : k ∈ (l.map (fun r => r.origin_zone)).dedup
  · simp [h]
  · have hk : k ∉ l.map (fun r => r.origin_zone) :=
      fun hm => h (List.mem_dedup.mpr hm)
    rw [if_neg h]
    have hnil : l.filter (fun r => r.origin_zone = k) = [] := by
      apply List.filter_eq_nil_iff.mpr
      intro r hr
      simp only [decide_eq_true_eq]
      intro e
      exact hk (List.mem_map.mpr ⟨r, hr, e⟩)
    simp [hnil]

theorem filter_filter_prop {α : Type} (l : List α) (p q s : α → Bool)
    (h : ∀ a, s a = true ↔ (p a = true ∧ q a = true)) :
    (l.filter p).filter q = l.filter s := by
  induction l with
  | nil => rfl
  | cons a t ih =>
    by_cases hp : p a = true
    · rw [List.filter_cons_of_pos hp]
      by_cases hq : q a = true
      · rw [List.filter_cons_of_pos hq,
          List.filter_cons_of_pos ((h a).mpr ⟨hp, hq⟩), ih]
      · rw [List.filter_cons_of_neg (by simpa using hq),
          List.filter_cons_of_neg (by
            simp only [Bool.not_eq_true]
            rw [Bool.eq_false_iff]
            intro hs
            exact hq ((h a).mp hs).2), ih]
    · rw [List.filter_cons_of_neg (by simpa using hp),
        List.filter_cons_of_neg (by
          simp only [Bool.not_eq_true]
          rw [Bool.eq_false_iff]
          intro hs
          exact hp ((h a).mp hs).1), ih]

/-- Per-origin row count of one band, stated over the unsorted skim: the
pre-sorting step is a permutation, so grouped counts are unchanged; under
pair-uniqueness the row count is the number of distinct destination zones. -/
theorem bandEntry_count (skim : Skim) (tb : ℤ) (i : ℕ) (a b : ℚ)
    (ha : ((lowerB i tb : ℤ) : ℚ) = a) (hb : ((upperB i tb : ℤ) : ℚ) = b)
    (hp : (skim.map pairKey).Nodup) (o : ℤ) :
    lookupN (bandEntry skim tb i).2.2 o =
      ((skim.filter (fun r =>
          r.origin_zone = o ∧ a < r.travel_time ∧ r.travel_time ≤ b)).map
        (fun r => r.destination_zone)).dedup.length := by
  subst ha
  subst hb
  show lookupN (groupSize (bandFilter skim tb i)) o = _
  rw [lookupN_groupSize]
  unfold bandFilter
  rw [filter_filter_prop _ _ _
    (fun r => r.origin_zone = o ∧
      ((lowerB i tb : ℤ) : ℚ) < r.travel_time ∧
      r.travel_time ≤ ((upperB i tb : ℤ) : ℚ))
    (by
      intro r
      simp only [decide_eq_true_eq]
      constructor
      · rintro ⟨h1, h2, h3⟩; exact ⟨⟨h2, h3⟩, h1⟩
      · rintro ⟨⟨h2, h3⟩, h1⟩; exact ⟨h1, h2, h3⟩)]
  rw [((List.mergeSort_perm skim sortLe).filter _).length_eq]
  rw [List.dedup_eq_self.mpr (nodup_dest_of_nodup_pairs skim hp o _
    (fun r h => (of_decide_eq_true h).1))]
  rw [List.length_map]

/-- The `j`-th entry (0-based) of the five-entry result is band `j+1`. -/
theorem ctba_getD (skim : Skim) (tb : ℤ) (j : ℕ) (hj : j < 5) :
    (calculate_time_band_accessibility skim tb).getD j (0, 0, []) =
      bandEntry skim tb (j + 1) := by
  interval_cases j <;> rfl

/-- The C3 example: travel times {10, 15, 16, 40} from origin 5. -/
def skimT : Skim := [⟨5, 1, 10⟩, ⟨5, 2, 15⟩, ⟨5, 3, 16⟩, ⟨5, 4, 40⟩]

/-- C3: `calculate_time_band_accessibility` produces exactly 5 bands with
boundaries `lower_i = (i-1)*band_width`, `upper_i = i*band_width` (indexing
bands by `j = i-1 = 0..4`); each band counts, per origin zone, the distinct
destination zones with `lower < travel_time <= upper`; and for band_width 15
and travel times {10,15,16,40} from origin 5 the counts are 2,1,1,0,0. -/
theorem claim_C3 :
    (∀ (skim : Skim) (tb : ℤ),
      (calculate_time_band_accessibility skim tb).length = 5) ∧
    (∀ (skim : Skim) (tb : ℤ) (j : ℕ), j < 5 →
      ((calculate_time_band_accessibility skim tb).getD j (0, 0, [])).1 =
          (j : ℤ) * tb ∧
        ((calculate_time_band_accessibility skim tb).getD j (0, 0, [])).2.1 =
          ((j : ℤ) + 1) * tb) ∧
    (∀ (skim : Skim) (tb : ℤ), (skim.map pairKey).Nodup →
      ∀ (j : ℕ), j < 5 → ∀ o : ℤ,
        lookupN ((calculate_time_band_accessibility skim tb).getD j
            (0, 0, [])).2.2 o =
          ((skim.filter (fun r => r.origin_zone = o ∧
              ((((calculate_time_band_accessibility skim tb).getD j
                  (0, 0, [])).1 : ℤ) : ℚ) < r.travel_time ∧
              r.travel_time ≤
                ((((calculate_time_band_accessibility skim tb).getD j
                  (0, 0, [])).2.1 : ℤ) : ℚ))).map
            (fun r => r.destination_zone)).dedup.length) ∧
    lookupN ((calculate_time_band_accessibility skimT 15).getD 0
      (0, 0, [])).2.2 5 = 2 ∧
    lookupN ((calculate_time_band_accessibility skimT 15).getD 1
      (0, 0, [])).2.2 5 = 1 ∧
    lookupN ((calculate_time_band_accessibility skimT 15).getD 2
      (0, 0, [])).2.2 5 = 1 ∧
    lookupN ((calculate_time_band_accessibility skimT 15).getD 3
      (0, 0, [])).2.2 5 = 0 ∧
    lookupN ((calculate_time_band_accessibility skimT 15).getD 4
      (0, 0, [])).2.2 5 = 0 := by
  refine ⟨?_, ?_, ?_, ?_, ?_, ?_, ?_, ?_⟩
  · intro skim tb
    rfl
  · intro skim tb j hj
    rw [ctba_getD skim tb j hj]
    constructor
    · show lowerB (j + 1) tb = (j : ℤ) * tb
      unfold lowerB
      rcases Nat.eq_zero_or_pos j with rfl | hjpos
      · simp
      · rw [if_pos (by omega)]
        push_cast
        ring
    · show upperB (j + 1) tb = ((j : ℤ) + 1) * tb
      unfold upperB
      push_cast
      ring
  · intro skim tb hp j hj o
    rw [ctba_getD skim tb j hj]
    exact bandEntry_count skim tb (j + 1) _ _ rfl rfl hp o
  · rw [ctba_getD skimT 15 0 (by norm_num),
      bandEntry_count skimT 15 1 _ _ rfl rfl (by decide) 5]
    decide
  · rw [ctba_getD skimT 15 1 (by norm_num),
      bandEntry_count skimT 15 2 _ _ rfl rfl (by decide) 5]
    decide
  · rw [ctba_getD skimT 15 2 (by norm_num),
      bandEntry_count skimT 15 3 _ _ rfl rfl (by decide) 5]
    decide
  · rw [ctba_getD skimT 15 3 (by norm_num),
      bandEntry_count skimT 15 4 _ _ rfl rfl (by decide) 5]
    decide
  · rw [ctba_getD skimT 15 4 (by norm_num),
      bandEntry_count skimT 15 5 _ _ rfl rfl (by decide) 5]
    decide

/-- Witness for C3: the per-band count characterisation applied to the
concrete example skim at band 1, origin 5. -/
theorem claim_C3_witness :
    lookupN ((calculate_time_band_accessibility skimT 15).getD 0
        (0, 0, [])).2.2 5 =
      ((skimT.filter (fun r => r.origin_zone = 5 ∧
          ((((calculate_time_band_accessibility skimT 15).getD 0
              (0, 0, [])).1 : ℤ) : ℚ) < r.travel_time ∧
          r.travel_time ≤
            ((((calculate_time_band_accessibility skimT 15).getD 0
              (0, 0, [])).2.1 : ℤ) : ℚ))).map
        (fun r => r.destination_zone)).dedup.length :=
  claim_C3.2.2.1 skimT 15 (by decide) 0 (by norm_num) 5

theorem length_filter_cons {α : Type} (p : α → Bool) (a : α) (l : List α) :
    (List.filter p (a :: l)).length =
      (if p a = true then 1 else 0) + (l.filter p).length := by
  by_cases h : p a = true
  · simp [List.filter_cons, h]
    omega
  · simp [List.filter_cons, h]

/-- The five bands partition the positive travel times up to `5*band_width`:
summing the per-band row counts for one origin gives the row count of
`0 < travel_time <= 5*band_width` for that origin (for any sign of the
band width). -/
theorem five_band_length (skim : Skim) (tb : ℤ) (o : ℤ) :
    (skim.filter (fun r => r.origin_zone = o ∧
        (0 : ℚ) < r.travel_time ∧ r.travel_time ≤ (tb : ℚ))).length +
      ((skim.filter (fun r => r.origin_zone = o ∧
        (tb : ℚ) < r.travel_time ∧ r.travel_time ≤ 2 * (tb : ℚ))).length +
      ((skim.filter (fun r => r.origin_zone = o ∧
        2 * (tb : ℚ) < r.travel_time ∧ r.travel_time ≤ 3 * (tb : ℚ))).length +
      ((skim.filter (fun r => r.origin_zone = o ∧
        3 * (tb : ℚ) < r.travel_time ∧ r.travel_time ≤ 4 * (tb : ℚ))).length +
      (skim.filter (fun r => r.origin_zone = o ∧
        4 * (tb : ℚ) < r.travel_time ∧ r.travel_time ≤ 5 * (tb : ℚ))).length))) =
    (skim.filter (fun r => r.origin_zone = o ∧
        (0 : ℚ) < r.travel_time ∧ r.travel_time ≤ 5 * (tb : ℚ))).length := by
  induction skim with
  | nil => rfl
  | cons r t ih =>
    rw [length_filter_cons, length_filter_cons, length_filter_cons,
      length_filter_cons, length_filter_cons, length_filter_cons]
    by_cases horig : r.origin_zone = o
    · set s := r.travel_time with hs
      set w := (tb : ℚ) with hw
      by_cases c0 : 0 < s
      · by_cases c1 : s ≤ w
        · rw [if_pos (decide_eq_true ⟨horig, c0, c1⟩),
            if_neg (by simp only [decide_eq_true_eq]; rintro ⟨-, a1, a2⟩; linarith),
            if_neg (by simp only [decide_eq_true_eq]; rintro ⟨-, a1, a2⟩; linarith),
            if_neg (by simp only [decide_eq_true_eq]; rintro ⟨-, a1, a2⟩; linarith),
            if_neg (by simp only [decide_eq_true_eq]; rintro ⟨-, a1, a2⟩; linarith),
            if_pos (decide_eq_true ⟨horig, c0, by nlinarith⟩)]
          omega
        · by_cases c2 : s ≤ 2 * w
          · rw [if_neg (by simp only [decide_eq_true_eq]; rintro ⟨-, a1, a2⟩; linarith),
              if_pos (decide_eq_true ⟨horig, by linarith, c2⟩),
              if_neg (by simp only [decide_eq_true_eq]; rintro ⟨-, a1, a2⟩; linarith),
              if_neg (by simp only [decide_eq_true_eq]; rintro ⟨-, a1, a2⟩; linarith),
              if_neg (by simp only [decide_eq_true_eq]; rintro ⟨-, a1, a2⟩; linarith),
              if_pos (decide_eq_true ⟨horig, c0, by linarith⟩)]
            omega
          · by_cases c3 : s ≤ 3 * w
            · rw [if_neg (by simp only [decide_eq_true_eq]; rintro ⟨-, a1, a2⟩; linarith),
                if_neg (by simp only [decide_eq_true_eq]; rintro ⟨-, a1, a2⟩; linarith),
                if_pos (decide_eq_true ⟨horig, by linarith, c3⟩),
                if_neg (by simp only [decide_eq_true_eq]; rintro ⟨-, a1, a2⟩; linarith),
                if_neg (by simp only [decide_eq_true_eq]; rintro ⟨-, a1, a2⟩; linarith),
                if_pos (decide_eq_true ⟨horig, c0, by linarith⟩)]
              omega
            · by_cases c4 : s ≤ 4 * w
              · rw [if_neg (by simp only [decide_eq_true_eq]; rintro ⟨-, a1, a2⟩; linarith),
                  if_neg (by simp only [decide_eq_true_eq]; rintro ⟨-, a1, a2⟩; linarith),
                  if_neg (by simp only [decide_eq_true_eq]; rintro ⟨-, a1, a2⟩; linarith),
                  if_pos (decide_eq_true ⟨horig, by linarith, c4⟩),
                  if_neg (by simp only [decide_eq_true_eq]; rintro ⟨-, a1, a2⟩; linarith),
                  if_pos (decide_eq_true ⟨horig, c0, by linarith⟩)]
                omega
              · by_cases c5 : s ≤ 5 * w
                · rw [if_neg (by simp only [decide_eq_true_eq]; rintro ⟨-, a1, a2⟩; linarith),
                    if_neg (by simp only [decide_eq_true_eq]; rintro ⟨-, a1, a2⟩; linarith),
                    if_neg (by simp only [decide_eq_true_eq]; rintro ⟨-, a1, a2⟩; linarith),
                    if_neg (by simp only [decide_eq_true_eq]; rintro ⟨-, a1, a2⟩; linarith),
                    if_pos (decide_eq_true ⟨horig, by linarith, c5⟩),
                    if_pos (decide_eq_true ⟨horig, c0, c5⟩)]
                  omega
                · rw [if_neg (by simp only [decide_eq_true_eq]; rintro ⟨-, a1, a2⟩; linarith),
                    if_neg (by simp only [decide_eq_true_eq]; rintro ⟨-, a1, a2⟩; linarith),
                    if_neg (by simp only [decide_eq_true_eq]; rintro ⟨-, a1, a2⟩; linarith),
                    if_neg (by simp only [decide_eq_true_eq]; rintro ⟨-, a1, a2⟩; linarith),
                    if_neg (by simp only [decide_eq_true_eq]; rintro ⟨-, a1, a2⟩; linarith),
                    if_neg (by simp only [decide_eq_true_eq]; rintro ⟨-, a1, a2⟩; linarith)]
                  omega
      · rw [if_neg (by simp only [decide_eq_true_eq]; rintro ⟨-, a1, a2⟩; linarith),
          if_neg (by simp only [decide_eq_true_eq]; rintro ⟨-, a1, a2⟩; linarith),
          if_neg (by simp only [decide_eq_true_eq]; rintro ⟨-, a1, a2⟩; linarith),
          if_neg (by simp only [decide_eq_true_eq]; rintro ⟨-, a1, a2⟩; linarith),
          if_neg (by simp only [decide_eq_true_eq]; rintro ⟨-, a1, a2⟩; linarith),
          if_neg (by simp only [decide_eq_true_eq]; rintro ⟨-, a1, a2⟩; linarith)]
        omega
    · rw [if_neg (by simp only [decide_eq_true_eq]; rintro ⟨h, -⟩; exact horig h),
        if_neg (by simp only [decide_eq_true_eq]; rintro ⟨h, -⟩; exact horig h),
        if_neg (by simp only [decide_eq_true_eq]; rintro ⟨h, -⟩; exact horig h),
        if_neg (by simp only [decide_eq_true_eq]; rintro ⟨h, -⟩; exact horig h),
        if_neg (by simp only [decide_eq_true_eq]; rintro ⟨h, -⟩; exact horig h),
        if_neg (by simp only [decide_eq_true_eq]; rintro ⟨h, -⟩; exact horig h)]
      omega

theorem dedup_dest_length (skim : Skim) (hp : (skim.map pairKey).Nodup)
    (o : ℤ) (q : SkimRow → Bool) (hq : ∀ r, q r = true → r.origin_zone = o) :
    ((skim.filter q).map (fun r => r.destination_zone)).dedup.length =
      (skim.filter q).length := by
  rw [List.dedup_eq_self.mpr (nodup_dest_of_nodup_pairs skim hp o q hq),
    List.length_map]

/-- Summing the five band counts of one origin gives the number of distinct
destination zones with `0 < travel_time <= 5*band_width`. -/
theorem ctba_sum_counts (skim : Skim) (tb : ℤ)
    (hp : (skim.map pairKey).Nodup) (o : ℤ) :
    ((calculate_time_band_accessibility skim tb).map
        (fun e => lookupN e.2.2 o)).sum =
      ((skim.filter (fun r => r.origin_zone = o ∧
          (0 : ℚ) < r.travel_time ∧
          r.travel_time ≤ ((5 * tb : ℤ) : ℚ))).map
        (fun r => r.destination_zone)).dedup.length := by
  have hcast : ((5 * tb : ℤ) : ℚ) = 5 * (tb : ℚ) := by push_cast; ring
  rw [hcast]
  show lookupN (bandEntry skim tb 1).2.2 o +
      (lookupN (bandEntry skim tb 2).2.2 o +
      (lookupN (bandEntry skim tb 3).2.2 o +
      (lookupN (bandEntry skim tb 4).2.2 o +
      (lookupN (bandEntry skim tb 5).2.2 o + 0)))) = _
  rw [bandEntry_count skim tb 1 0 (tb : ℚ)
      (by norm_num [lowerB]) (by norm_num [upperB]) hp o,
    bandEntry_count skim tb 2 (tb : ℚ) (2 * (tb : ℚ))
      (by norm_num [lowerB]) (by push_cast [upperB]; ring) hp o,
    bandEntry_count skim tb 3 (2 * (tb : ℚ)) (3 * (tb : ℚ))
      (by push_cast [lowerB]; norm_num) (by push_cast [upperB]; ring) hp o,
    bandEntry_count skim tb 4 (3 * (tb : ℚ)) (4 * (tb : ℚ))
      (by push_cast [lowerB]; norm_num) (by push_cast [upperB]; ring) hp o,
    bandEntry_count skim tb 5 (4 * (tb : ℚ)) (5 * (tb : ℚ))
      (by push_cast [lowerB]; norm_num) (by push_cast [upperB]; ring) hp o]
  rw [dedup_dest_length skim hp o _ (fun r h => (of_decide_eq_true h).1),
    dedup_dest_length skim hp o _ (fun r h => (of_decide_eq_true h).1),
    dedup_dest_length skim hp o _ (fun r h => (of_decide_eq_true h).1),
    dedup_dest_length skim hp o _ (fun r h => (of_decide_eq_true h).1),
    dedup_dest_length skim hp o _ (fun r h => (of_decide_eq_true h).1),
    dedup_dest_length skim hp o _ (fun r h => (of_decide_eq_true h).1)]
  rw [Nat.add_zero]
  exact five_band_length skim tb o

/-- The C4 counterexample skim: a single self-trip with travel time 0. -/
def skimZ : Skim := [⟨1, 1, 0⟩]

/-- Counterexample to C4 as stated: for the skim [(1,1,0.0)] and band width
15, the five band counts for origin 1 sum to 0, but one distinct destination
zone is reachable with travel_time ≤ 5*15 = 75 — a travel time of exactly 0
falls in no band, so the claimed equality fails. -/
theorem claim_C4_counterexample :
    ¬ (((calculate_time_band_accessibility skimZ 15).map
          (fun e => lookupN e.2.2 1)).sum =
        ((skimZ.filter (fun r => r.origin_zone = 1 ∧
            r.travel_time ≤ ((5 * 15 : ℤ) : ℚ))).map
          (fun r => r.destination_zone)).dedup.length) := by
  rw [ctba_sum_counts skimZ 15 (by decide) 1]
  decide

/-- C4 amended: for every zone-level skim (pair-unique) and band width, the
sum of the five band counts for an origin equals the number of distinct
reachable destination zones whose travel time t satisfies
`0 < t <= 5*band_width` (travel times of exactly 0 fall in no band). -/
theorem claim_C4_amended (skim : Skim) (tb : ℤ)
    (hp : (skim.map pairKey).Nodup) (o : ℤ) :
    ((calculate_time_band_accessibility skim tb).map
        (fun e => lookupN e.2.2 o)).sum =
      ((skim.filter (fun r => r.origin_zone = o ∧
          (0 : ℚ) < r.travel_time ∧
          r.travel_time ≤ ((5 * tb : ℤ) : ℚ))).map
        (fun r => r.destination_zone)).dedup.length :=
  ctba_sum_counts skim tb hp o

/-- Witness for the amended C4 at the concrete example skim. -/
theorem claim_C4_witness :
    ((calculate_time_band_accessibility skimT 15).map
        (fun e => lookupN e.2.2 5)).sum =
      ((skimT.filter (fun r => r.origin_zone = 5 ∧
          (0 : ℚ) < r.travel_time ∧
          r.travel_time ≤ ((5 * 15 : ℤ) : ℚ))).map
        (fun r => r.destination_zone)).dedup.length :=
  claim_C4_amended skimT 15 (by decide) 5

/-! ### Classifier numeric helpers (`map_utils.py`) -/

/-- Python's `round` on a real value: round half to even, returning an
integer. -/
def pyround (q : ℚ) : ℤ :=
  if q - (⌊q⌋ : ℚ) < 1 / 2 then ⌊q⌋
  else if 1 / 2 < q - (⌊q⌋ : ℚ) then ⌊q⌋ + 1
  else if ⌊q⌋ % 2 = 0 then ⌊q⌋ else ⌊q⌋ + 1

/-- `int(math.log10(q))` for `q > 0`: the base-10 logarithm truncated toward
zero (`int()` truncates, so inputs in (0,1) with log10 in (-1,0] give 0). -/
def ilog10trunc (q : ℚ) : ℤ :=
  if 1 ≤ q then (Nat.log 10 (⌊q⌋).toNat : ℤ)
  else -(Nat.log 10 (⌊1 / q⌋).toNat : ℤ)

/-- `magnitude = 10 ** (max(0, int(math.log10(abs(x))) - (round_to - 1)))`
(`map_utils.py` line 47): an integer power of ten, at least 1 because the
exponent is clamped at 0. -/
def niceMagnitude (x : ℚ) (round_to : ℕ) : ℚ :=
  (10 : ℚ) ^ (max 0 (ilog10trunc |x| - ((round_to : ℤ) - 1))).toNat

/-- `nice_number` (`map_utils.py` lines 43-48):
`int(round(x / magnitude) * magnitude)`, with 0 mapped to 0. -/
def nice_number (x : ℚ) (round_to : ℕ) : ℚ :=
  if x = 0 then 0
  else ((pyround (x / niceMagnitude x round_to) : ℤ) : ℚ) *
    niceMagnitude x round_to

/-- pandas `Series.quantile(q)` with the default linear interpolation over a
sorted list of values: `h = q*(n-1)`, interpolate between the floor-indexed
neighbours. -/
def pquantile : List ℚ → ℚ → ℚ
  | [], _ => 0
  | v :: rest, q =>
    (v :: rest).getD (⌊q * (((v :: rest).length : ℚ) - 1)⌋).toNat 0 +
      (q * (((v :: rest).length : ℚ) - 1) -
        (⌊q * (((v :: rest).length : ℚ) - 1)⌋ : ℚ)) *
      ((v :: rest).getD ((⌊q * (((v :: rest).length : ℚ) - 1)⌋).toNat + 1)
          ((v :: rest).getD (⌊q * (((v :: rest).length : ℚ) - 1)⌋).toNat 0) -
        (v :: rest).getD (⌊q * (((v :: rest).length : ℚ) - 1)⌋).toNat 0)

/-- `math.ceil(math.log2 m)` for `m ≥ 1`: the least `k` with `2^k ≥ m`,
computed with structural fuel so that it evaluates in the kernel. -/
def ceilLog2Aux : ℕ → ℕ → ℕ → ℕ
  | 0, _, k => k
  | fuel + 1, m, k => if m ≤ 2 ^ k then k else ceilLog2Aux fuel m (k + 1)

/-- Least `k` with `2^k ≥ m`. -/
def ceilLog2 (m : ℕ) : ℕ := ceilLog2Aux m m 0

/-- `n_bins = min(max(4, ceil(log2(n+1))), 7)` — Sturges' rule clamped to
[4, 7] (`map_utils.py` line 111). -/
def sturges (n : ℕ) : ℕ := min (max 4 (ceilLog2 (n + 1))) 7

/-- A rational that is (the cast of) an integer. -/
def isInt (q : ℚ) : Prop := ∃ n : ℤ, q = (n : ℚ)

/-! #### Evaluation helpers for the concrete classifier computations -/

theorem int_floor_eval (q : ℚ) (f : ℤ) (h1 : (f : ℚ) ≤ q)
    (h2 : q < (f : ℚ) + 1) : ⌊q⌋ = f :=
  Int.floor_eq_iff.mpr ⟨h1, h2⟩

theorem pyround_low (q : ℚ) (f : ℤ) (h1 : (f : ℚ) ≤ q)
    (h2 : q < (f : ℚ) + 1 / 2) : pyround q = f := by
  have hf : ⌊q⌋ = f := int_floor_eval q f h1 (by linarith)
  unfold pyround
  rw [hf, if_pos (by linarith)]

theorem pyround_high (q : ℚ) (f : ℤ) (h1 : (f : ℚ) + 1 / 2 < q)
    (h2 : q < (f : ℚ) + 1) : pyround q = f + 1 := by
  have hf : ⌊q⌋ = f := int_floor_eval q f (by linarith) h2
  unfold pyround
  rw [hf, if_neg (by linarith), if_pos (by linarith)]

/-- C10 (implicit): `nice_number` always yields an integer — its rounding
magnitude is an integer power of ten at least 1 — hence every bin edge
produced by the Variant A classifier is an integer, and any value in
(0, 1/2) (such as a low quantile edge of a fractional column) rounds to 0. -/
theorem nice_number_isInt (x : ℚ) (round_to : ℕ) :
    isInt (nice_number x round_to) := by
  unfold nice_number
  by_cases h : x = 0
  · exact ⟨0, by simp [h]⟩
  · rw [if_neg h]
    refine ⟨pyround (x / niceMagnitude x round_to) *
      (10 : ℤ) ^ (max 0 (ilog10trunc |x| - ((round_to : ℤ) - 1))).toNat, ?_⟩
    unfold niceMagnitude
    push_cast
    ring

theorem niceMagnitude_pow (x : ℚ) (round_to : ℕ) :
    (1 : ℚ) ≤ niceMagnitude x round_to ∧
      ∃ k : ℕ, niceMagnitude x round_to = 10 ^ k := by
  unfold niceMagnitude
  exact ⟨one_le_pow₀ (by norm_num), _, rfl⟩

theorem nice_number_small (v : ℚ) (h0 : 0 < v) (h2 : v < 1 / 2) :
    nice_number v 3 = 0 := by
  have hv1 : ¬(1 ≤ v) := by linarith
  have hilog : ilog10trunc |v| ≤ 0 := by
    unfold ilog10trunc
    rw [abs_of_pos h0, if_neg hv1]
    simp
  have hmag : niceMagnitude v 3 = 1 := by
    unfold niceMagnitude
    have hmax : max 0 (ilog10trunc |v| - (((3 : ℕ) : ℤ) - 1)) = 0 := by
      push_cast
      omega
    rw [hmax]
    simp
  unfold nice_number
  rw [if_neg (by linarith), hmag, div_one,
    pyround_low v 0 (by push_cast; linarith) (by push_cast; linarith)]
  simp

/-! ### Variant A bin computation (`assign_colors_to_zones`, lines 107-163) -/

/-- Ascending comparison used by `sort_values()` on a numeric column. -/
def qle (a b : ℚ) : Bool := decide (a ≤ b)

/-- `values = zones[col].dropna().sort_values()` (`map_utils.py` line 109). -/
def colValues (col : List (Option ℚ)) : List ℚ :=
  (col.filterMap id).mergeSort qle

/-- Bin count: Sturges' rule on the non-null count, defaulting to 5 on an
empty column (`map_utils.py` line 111). -/
def nbinsA (col : List (Option ℚ)) : ℕ :=
  if 0 < (colValues col).length then sturges (colValues col).length else 5

/-- Fallback edges for an all-null column (`map_utils.py` line 115). -/
def presetBins : List ℚ :=
  [0, 500000, 2000000, 4500000, 6000000, 10000000]

/-- The in-place repair loop `if bins[i] <= bins[i-1]: bins[i] = bins[i-1]+1`
(`map_utils.py` lines 122-124), acting on the tail given the running
previous edge. -/
def repairTail (prev : ℚ) : List ℚ → List ℚ
  | [] => []
  | b :: rest =>
    if b ≤ prev then (prev + 1) :: repairTail (prev + 1) rest
    else b :: repairTail b rest

/-- Force strictly increasing edges, first edge unchanged. -/
def repairEdges : List ℚ → List ℚ
  | [] => []
  | b :: rest => b :: repairTail b rest

/-- The bin edges of Variant A (`map_utils.py` lines 114-124): quantiles of
the sorted non-null values at equal probability steps, nice-rounded, then
repaired to be strictly increasing; preset edges for an empty column. -/
def binsA (col : List (Option ℚ)) : List ℚ :=
  if (colValues col).length = 0 then presetBins.take (nbinsA col + 1)
  else repairEdges (((List.range (nbinsA col + 1)).map
    (fun (i : ℕ) => pquantile (colValues col)
      ((i : ℚ) / ((nbinsA col : ℕ) : ℚ)))).map
    (fun b => nice_number b 3))

/-- Bin count and edges of Variant A, as a pair. -/
def computeBinsA (col : List (Option ℚ)) : ℕ × List ℚ :=
  (nbinsA col, binsA col)

/-- The membership test of bin `i` in `assign_color`/`assign_label`
(`map_utils.py` lines 136-141): interior bins are half-open
`[edge_i, edge_{i+1})`, the top bin is `[edge_{nb-1}, ∞)`. -/
def binMem (bins : List ℚ) (nb i : ℕ) (v : ℚ) : Bool :=
  if i = nb - 1 then decide (bins.getD i 0 ≤ v)
  else decide (bins.getD i 0 ≤ v) && decide (v < bins.getD (i + 1) 0)

theorem repairTail_chain (l : List ℚ) :
    ∀ prev : ℚ, List.Chain (· < ·) prev (repairTail prev l) := by
  induction l with
  | nil => intro prev; exact List.Chain.nil
  | cons b rest ih =>
    intro prev
    unfold repairTail
    by_cases h : b ≤ prev
    · rw [if_pos h]
      exact List.Chain.cons (by linarith) (ih (prev + 1))
    · rw [if_neg h]
      exact List.Chain.cons (by linarith) (ih b)

theorem repairEdges_chain' (l : List ℚ) :
    List.Chain' (· < ·) (repairEdges l) := by
  cases l with
  | nil => exact List.chain'_nil
  | cons b rest => exact repairTail_chain rest b

theorem repairTail_length (l : List ℚ) :
    ∀ prev : ℚ, (repairTail prev l).length = l.length := by
  induction l with
  | nil => intro prev; rfl
  | cons b rest ih =>
    intro prev
    unfold repairTail
    by_cases h : b ≤ prev
    · rw [if_pos h]; simp [ih]
    · rw [if_neg h]; simp [ih]

theorem repairEdges_length (l : List ℚ) :
    (repairEdges l).length = l.length := by
  cases l with
  | nil => rfl
  | cons b rest => simp [repairEdges, repairTail_length]

theorem repairTail_int (l : List ℚ) :
    ∀ prev : ℚ, isInt prev → (∀ b ∈ l, isInt b) →
      ∀ b ∈ repairTail prev l, isInt b := by
  induction l with
  | nil => intro prev _ _ b hb; simp [repairTail] at hb
  | cons c rest ih =>
    intro prev hprev hl b hb
    unfold repairTail at hb
    by_cases h : c ≤ prev
    · rw [if_pos h] at hb
      rcases List.mem_cons.mp hb with rfl | hb'
      · obtain ⟨n, rfl⟩ := hprev
        exact ⟨n + 1, by push_cast; ring⟩
      · refine ih (prev + 1) ?_ (fun x hx => hl x (List.mem_cons_of_mem c hx)) b hb'
        obtain ⟨n, rfl⟩ := hprev
        exact ⟨n + 1, by push_cast; ring⟩
    · rw [if_neg h] at hb
      rcases List.mem_cons.mp hb with rfl | hb'
      · exact hl b (List.mem_cons_self _ _)
      · exact ih _ (hl _ (List.mem_cons_self _ _))
          (fun x hx => hl x (List.mem_cons_of_mem _ hx)) b hb'

theorem repairEdges_int (l : List ℚ) (hl : ∀ b ∈ l, isInt b) :
    ∀ b ∈ repairEdges l, isInt b := by
  cases l with
  | nil => intro b hb; simp [repairEdges] at hb
  | cons c rest =>
    intro b hb
    unfold repairEdges at hb
    rcases List.mem_cons.mp hb with rfl | hb'
    · exact hl b (List.mem_cons_self _ _)
    · exact repairTail_int rest _ (hl _ (List.mem_cons_self _ _))
        (fun x hx => hl x (List.mem_cons_of_mem _ hx)) b hb'

theorem binsA_length (col : List (Option ℚ)) :
    (binsA col).length = nbinsA col + 1 := by
  unfold binsA
  by_cases h : (colValues col).length = 0
  · rw [if_pos h]
    have h5 : nbinsA col = 5 := by
      unfold nbinsA
      rw [if_neg (by omega)]
    rw [h5]
    rfl
  · rw [if_neg h, repairEdges_length, List.length_map, List.length_map,
      List.length_range]

theorem nbinsA_ge_one (col : List (Option ℚ)) : 1 ≤ nbinsA col := by
  unfold nbinsA
  by_cases h : 0 < (colValues col).length
  · rw [if_pos h]
    unfold sturges
    omega
  · rw [if_neg h]
    omega

/-- Strict monotonicity of the edges in `getD` form. -/
theorem chain'_getD_mono (bins : List ℚ) (hchain : List.Chain' (· < ·) bins)
    (i j : ℕ) (hij : i < j) (hj : j < bins.length) :
    bins.getD i 0 < bins.getD j 0 := by
  have hpw := (List.chain'_iff_pairwise.mp hchain)
  have := List.pairwise_iff_getElem.mp hpw i j (lt_trans hij hj) hj hij
  rw [List.getD_eq_getElem bins 0 (lt_trans hij hj),
    List.getD_eq_getElem bins 0 hj]
  exact this

/-- With strictly increasing edges, every value at or above the lowest edge
passes the membership test of exactly one bin. -/
theorem exactly_one_bin (bins : List ℚ) (nb : ℕ)
    (hlen : bins.length = nb + 1) (hchain : List.Chain' (· < ·) bins)
    (hnb : 1 ≤ nb) (v : ℚ) (hv : bins.getD 0 0 ≤ v) :
    ∃! i, i < nb ∧ binMem bins nb i v = true := by
  classical
  set P : ℕ → Prop := fun i => bins.getD i 0 ≤ v with hP
  have hP0 : P 0 := hv
  set k := Nat.findGreatest P (nb - 1) with hk
  have hPk : P k := Nat.findGreatest_spec (Nat.zero_le _) hP0
  have hkle : k ≤ nb - 1 := Nat.findGreatest_le _
  have hknb : k < nb := by omega
  have hnotP : ∀ j, k < j → j ≤ nb - 1 → ¬P j := by
    intro j h1 h2
    exact Nat.findGreatest_is_greatest h1 h2
  have hmono : ∀ i j, i < j → j < bins.length → bins.getD i 0 < bins.getD j 0 :=
    chain'_getD_mono bins hchain
  have hmem : binMem bins nb k v = true := by
    unfold binMem
    by_cases hkk : k = nb - 1
    · rw [if_pos hkk]
      exact decide_eq_true hPk
    · rw [if_neg hkk]
      have hknb1 : k < nb - 1 := by omega
      have hnP1 : ¬P (k + 1) := hnotP (k + 1) (by omega) (by omega)
      have : v < bins.getD (k + 1) 0 := by
        by_contra hc
        exact hnP1 (le_of_not_lt hc)
      rw [Bool.and_eq_true]
      exact ⟨decide_eq_true hPk, decide_eq_true this⟩
  refine ⟨k, ⟨hknb, hmem⟩, ?_⟩
  rintro j ⟨hjnb, hjmem⟩
  by_contra hne
  rcases Nat.lt_or_ge j k with hjk | hjk
  · -- j < k ≤ nb-1, so bin j is interior; its upper edge is at most edge k
    have hjint : j ≠ nb - 1 := by omega
    unfold binMem at hjmem
    rw [if_neg hjint] at hjmem
    rw [Bool.and_eq_true] at hjmem
    have hup := of_decide_eq_true hjmem.2
    have hle : bins.getD (j + 1) 0 ≤ bins.getD k 0 := by
      rcases Nat.lt_or_ge (j + 1) k with h | h
      · exact le_of_lt (hmono (j + 1) k h (by omega))
      · have : j + 1 = k := by omega
        rw [this]
    have : v < bins.getD k 0 := lt_of_lt_of_le hup hle
    exact absurd hPk (not_le.mpr this)
  · -- k < j ≤ nb-1 contradicts maximality of k
    have hjk' : k < j := by omega
    have hPj : P j := by
      unfold binMem at hjmem
      by_cases hjj : j = nb - 1
      · rw [if_pos hjj] at hjmem
        exact of_decide_eq_true hjmem
      · rw [if_neg hjj, Bool.and_eq_true] at hjmem
        exact of_decide_eq_true hjmem.1
    exact hnotP j hjk' (by omega) hPj

/-- Composite evaluation rule for `nice_number x 3` on `x ≥ 1`, given the
floor of `x`, the decimal log of that floor, the resulting magnitude and the
rounded quotient. -/
theorem nice_number_eval3 (x : ℚ) (fl : ℤ) (lg : ℕ) (m : ℚ) (r : ℤ)
    (hx1 : 1 ≤ x) (hfl1 : (fl : ℚ) ≤ x) (hfl2 : x < (fl : ℚ) + 1)
    (hlg1 : 10 ^ lg ≤ fl.toNat) (hlg2 : fl.toNat < 10 ^ (lg + 1))
    (hm : (10 : ℚ) ^ (max 0 ((lg : ℤ) - (((3 : ℕ) : ℤ) - 1))).toNat = m)
    (hr : pyround (x / m) = r) :
    nice_number x 3 = (r : ℚ) * m := by
  have hx0 : ¬(x = 0) := by intro h; rw [h] at hx1; norm_num at hx1
  unfold nice_number niceMagnitude ilog10trunc
  rw [if_neg hx0, abs_of_pos (by linarith), if_pos hx1,
    int_floor_eval x fl hfl1 hfl2,
    show Nat.log 10 fl.toNat = lg from
      Nat.log_eq_of_pow_le_of_lt_pow hlg1 hlg2,
    hm, hr]

/-- The C6 counterexample column: its minimum 1236 nice-rounds UP to 1240. -/
def colC6 : List (Option ℚ) :=
  [some 1236, some 10000, some 20000, some 30000]

theorem colC6_values : colValues colC6 = [1236, 10000, 20000, 30000] := by
  unfold colValues colC6
  rw [show ([some (1236 : ℚ), some 10000, some 20000,
      some 30000].filterMap id) = [(1236 : ℚ), 10000, 20000, 30000] from rfl]
  exact List.mergeSort_of_sorted (by decide)

theorem colC6_nbins : nbinsA colC6 = 4 := by
  unfold nbinsA
  rw [colC6_values]
  decide

theorem colC6_bins : binsA colC6 = [1240, 7810, 15000, 22500, 30000] := by
  have hq0 : pquantile [(1236 : ℚ), 10000, 20000, 30000]
      (((0 : ℕ) : ℚ) / ((4 : ℕ) : ℚ)) = 1236 := by
    simp only [pquantile]
    norm_num
  have hq1 : pquantile [(1236 : ℚ), 10000, 20000, 30000]
      (((1 : ℕ) : ℚ) / ((4 : ℕ) : ℚ)) = 7809 := by
    simp only [pquantile]
    rw [show ((((1 : ℕ) : ℚ) / ((4 : ℕ) : ℚ)) *
        (([(1236 : ℚ), 10000, 20000, 30000].length : ℚ) - 1)) = 3 / 4 by
      norm_num]
    rw [int_floor_eval (3 / 4) 0 (by norm_num) (by norm_num)]
    norm_num
  have hq2 : pquantile [(1236 : ℚ), 10000, 20000, 30000]
      (((2 : ℕ) : ℚ) / ((4 : ℕ) : ℚ)) = 15000 := by
    simp only [pquantile]
    rw [show ((((2 : ℕ) : ℚ) / ((4 : ℕ) : ℚ)) *
        (([(1236 : ℚ), 10000, 20000, 30000].length : ℚ) - 1)) = 3 / 2 by
      norm_num]
    rw [int_floor_eval (3 / 2) 1 (by norm_num) (by norm_num)]
    norm_num
  have hq3 : pquantile [(1236 : ℚ), 10000, 20000, 30000]
      (((3 : ℕ) : ℚ) / ((4 : ℕ) : ℚ)) = 22500 := by
    simp only [pquantile]
    rw [show ((((3 : ℕ) : ℚ) / ((4 : ℕ) : ℚ)) *
        (([(1236 : ℚ), 10000, 20000, 30000].length : ℚ) - 1)) = 9 / 4 by
      norm_num]
    rw [int_floor_eval (9 / 4) 2 (by norm_num) (by norm_num)]
    norm_num [show ((2 : ℤ)).toNat = 2 from rfl, show ((3 : ℤ)).toNat = 3 from rfl]
  have hq4 : pquantile [(1236 : ℚ), 10000, 20000, 30000]
      (((4 : ℕ) : ℚ) / ((4 : ℕ) : ℚ)) = 30000 := by
    simp only [pquantile]
    rw [show ((((4 : ℕ) : ℚ) / ((4 : ℕ) : ℚ)) *
        (([(1236 : ℚ), 10000, 20000, 30000].length : ℚ) - 1)) = 3 by
      norm_num]
    rw [int_floor_eval (3 : ℚ) 3 (by norm_num) (by norm_num)]
    norm_num [show ((2 : ℤ)).toNat = 2 from rfl, show ((3 : ℤ)).toNat = 3 from rfl]
  have hn0 : nice_number 1236 3 = 1240 := by
    rw [nice_number_eval3 1236 1236 3 10 124 (by norm_num) (by norm_num)
      (by norm_num) (by norm_num) (by norm_num) (by norm_num)
      (pyround_high (1236 / 10) 123 (by norm_num) (by norm_num))]
    norm_num
  have hn1 : nice_number 7809 3 = 7810 := by
    rw [nice_number_eval3 7809 7809 3 10 781 (by norm_num) (by norm_num)
      (by norm_num) (by norm_num) (by norm_num) (by norm_num)
      (pyround_high (7809 / 10) 780 (by norm_num) (by norm_num))]
    norm_num
  have hn2 : nice_number 15000 3 = 15000 := by
    rw [nice_number_eval3 15000 15000 4 100 150 (by norm_num) (by norm_num)
      (by norm_num) (by norm_num) (by norm_num) (by norm_num [show ((2 : ℤ)).toNat = 2 from rfl, show ((3 : ℤ)).toNat = 3 from rfl])
      (pyround_low (15000 / 100) 150 (by norm_num) (by norm_num))]
    norm_num
  have hn3 : nice_number 22500 3 = 22500 := by
    rw [nice_number_eval3 22500 22500 4 100 225 (by norm_num) (by norm_num)
      (by norm_num) (by norm_num) (by norm_num) (by norm_num [show ((2 : ℤ)).toNat = 2 from rfl, show ((3 : ℤ)).toNat = 3 from rfl])
      (pyround_low (22500 / 100) 225 (by norm_num) (by norm_num))]
    norm_num
  have hn4 : nice_number 30000 3 = 30000 := by
    rw [nice_number_eval3 30000 30000 4 100 300 (by norm_num) (by norm_num)
      (by norm_num) (by norm_num) (by norm_num) (by norm_num [show ((2 : ℤ)).toNat = 2 from rfl, show ((3 : ℤ)).toNat = 3 from rfl])
      (pyround_low (30000 / 100) 300 (by norm_num) (by norm_num))]
    norm_num
  unfold binsA
  rw [colC6_values, colC6_nbins]
  rw [if_neg (by norm_num)]
  rw [show List.range (4 + 1) = [0, 1, 2, 3, 4] from rfl]
  simp only [List.map_cons, List.map_nil]
  rw [hq0, hq1, hq2, hq3, hq4, hn0, hn1, hn2, hn3, hn4]
  decide

theorem computeBinsA_colC6 :
    computeBinsA colC6 = (4, [1240, 7810, 15000, 22500, 30000]) := by
  unfold computeBinsA
  rw [colC6_nbins, colC6_bins]

/-- Counterexample to C6 as stated: in the column
[1236, 10000, 20000, 30000] the non-null, non-zero value 1236 lies below the
lowest nice-rounded bin edge 1240 and therefore passes the membership test of
NO bin (so not of exactly one). -/
theorem claim_C6_counterexample :
    some (1236 : ℚ) ∈ colC6 ∧ (1236 : ℚ) ≠ 0 ∧
    ∀ i, i < (computeBinsA colC6).1 →
      binMem (computeBinsA colC6).2 (computeBinsA colC6).1 i 1236 = false := by
  refine ⟨by decide, by norm_num, ?_⟩
  intro i hi
  rw [computeBinsA_colC6] at hi ⊢
  have hi4 : i < 4 := hi
  interval_cases i <;> decide

/-- C6 amended: the Variant A classifier's bin edges are always strictly
increasing, and every non-null, non-zero value of the column THAT IS AT
LEAST THE LOWEST BIN EDGE passes the membership test of exactly one bin
(half-open interior bins or the open-ended top bin).  Values below the
lowest edge — possible because nice-rounding can round the minimum up —
match no bin. -/
theorem claim_C6_amended (col : List (Option ℚ)) :
    List.Chain' (· < ·) (computeBinsA col).2 ∧
    ∀ v : ℚ, some v ∈ col → v ≠ 0 → (computeBinsA col).2.getD 0 0 ≤ v →
      ∃! i, i < (computeBinsA col).1 ∧
        binMem (computeBinsA col).2 (computeBinsA col).1 i v = true := by
  have hchain : List.Chain' (· < ·) (binsA col) := by
    unfold binsA
    by_cases h : (colValues col).length = 0
    · rw [if_pos h]
      have h5 : nbinsA col = 5 := by
        unfold nbinsA
        rw [if_neg (by omega)]
      rw [h5, show presetBins.take (5 + 1) = presetBins from rfl]
      norm_num [presetBins, List.chain'_cons]
    · rw [if_neg h]
      exact repairEdges_chain' _
  exact ⟨hchain, fun v _ _ hv =>
    exactly_one_bin (binsA col) (nbinsA col) (binsA_length col) hchain
      (nbinsA_ge_one col) v hv⟩

/-- Witness for the amended C6: on the counterexample column the value 10000
is at least the lowest edge 1240 and falls in exactly one bin. -/
theorem claim_C6_witness :
    List.Chain' (· < ·) (computeBinsA colC6).2 ∧
    (∃! i, i < (computeBinsA colC6).1 ∧
      binMem (computeBinsA colC6).2 (computeBinsA colC6).1 i 10000 = true) :=
  ⟨(claim_C6_amended colC6).1,
    (claim_C6_amended colC6).2 10000 (by decide) (by norm_num)
      (by rw [computeBinsA_colC6]; norm_num)⟩

/-- C10: `nice_number` returns an integer for every rational input; its
rounding magnitude is an integer power of ten at least 1; every Variant A
bin edge is an integer; and any value in (0, 1/2) — such as a low quantile
edge of a column of fractional values — rounds to 0 (before the
strictly-increasing repair). -/
theorem claim_C10 :
    (∀ x : ℚ, isInt (nice_number x 3)) ∧
    (∀ x : ℚ, (1 : ℚ) ≤ niceMagnitude x 3 ∧
      ∃ k : ℕ, niceMagnitude x 3 = 10 ^ k) ∧
    (∀ col : List (Option ℚ), ∀ b ∈ (computeBinsA col).2, isInt b) ∧
    (∀ v : ℚ, 0 < v → v < 1 / 2 → nice_number v 3 = 0) := by
  refine ⟨fun x => nice_number_isInt x 3, fun x => niceMagnitude_pow x 3,
    ?_, fun v h0 h2 => nice_number_small v h0 h2⟩
  intro col b hb
  have hb' : b ∈ binsA col := hb
  unfold binsA at hb'
  by_cases h : (colValues col).length = 0
  · rw [if_pos h] at hb'
    have h5 : nbinsA col = 5 := by
      unfold nbinsA
      rw [if_neg (by omega)]
    rw [h5, show presetBins.take (5 + 1) = presetBins from rfl] at hb'
    fin_cases hb'
    · exact ⟨0, by norm_num⟩
    · exact ⟨500000, by norm_num⟩
    · exact ⟨2000000, by norm_num⟩
    · exact ⟨4500000, by norm_num⟩
    · exact ⟨6000000, by norm_num⟩
    · exact ⟨10000000, by norm_num⟩
  · rw [if_neg h] at hb'
    refine repairEdges_int _ ?_ b hb'
    intro c hc
    obtain ⟨q, _, rfl⟩ := List.mem_map.mp hc
    exact nice_number_isInt q 3

/-! ### Zone colouring (`assign_colors_to_zones`, `assign_time_mapping_colors`) -/

/-- A zone row as the classifiers see it: id, the selected numeric column
(null = missing), and the output `color`/`label` columns (absent until a
classifier writes them). -/
structure ZoneRecA where
  zone_id : ℤ
  val : Option ℚ
  color : Option String
  label : Option String
deriving DecidableEq

/-- The fixed YlOrRd-like palette of `get_color_scale`
(`map_utils.py` lines 52-62). -/
def paletteFor : ℕ → List String
  | 9 => ["#ffffcc", "#ffeda0", "#fed976", "#feb24c", "#fd8d3c", "#fc4e2a",
      "#e31a1c", "#bd0026", "#800026"]
  | 8 => ["#ffffcc", "#ffeda0", "#fed976", "#feb24c", "#fd8d3c", "#fc4e2a",
      "#e31a1c", "#bd0026"]
  | 7 => ["#ffffcc", "#ffeda0", "#fed976", "#feb24c", "#fd8d3c", "#fc4e2a",
      "#e31a1c"]
  | 6 => ["#ffffcc", "#ffeda0", "#fed976", "#feb24c", "#fd8d3c", "#fc4e2a"]
  | 5 => ["#ffffcc", "#ffeda0", "#fed976", "#feb24c", "#fd8d3c"]
  | 4 => ["#ffffcc", "#ffeda0", "#feb24c", "#fd8d3c"]
  | 3 => ["#ffffcc", "#feb24c", "#fd8d3c"]
  | 2 => ["#ffffcc", "#fd8d3c"]
  | 1 => ["#fd8d3c"]
  | _ => []

/-- `idxs = [int(round(i*(k-1)/(n-1))) for i in range(n)] if n > 1 else [0]`
(`map_utils.py` line 66). -/
def interpIdxs (k n : ℕ) : List ℕ :=
  if 1 < n then
    (List.range n).map (fun (i : ℕ) =>
      (pyround (((i * (k - 1) : ℕ) : ℚ) / (((n - 1 : ℕ) : ℕ) : ℚ))).toNat)
  else [0]

/-- `get_color_scale` (`map_utils.py` lines 50-68): pick the largest palette
size `k ≤ n` from the descending key list, interpolate indices; fall back to
`["#fd8d3c"] * n` when no key fits (only for `n = 0`). -/
def get_color_scale (n : ℕ) : List String :=
  match ([9, 8, 7, 6, 5, 4, 3, 2, 1].find? (fun k => decide (k ≤ n))) with
  | some k => (interpIdxs k n).map (fun i => (paletteFor k).getD i "")
  | none => List.replicate n "#fd8d3c"

/-- `assign_color` (`map_utils.py` lines 131-142): zero/null gets the
neutral `#f0f0f0`; otherwise the colour of the first bin whose membership
test passes, defaulting to the last colour (`color_list[-1]`). -/
def assignColorA (bins : List ℚ) (nb : ℕ) (colors : List String)
    (v : Option ℚ) : String :=
  match v with
  | none => "#f0f0f0"
  | some x =>
    if x = 0 then "#f0f0f0"
    else
      match (List.range nb).find? (fun i => binMem bins nb i x) with
      | some i => colors.getD i ""
      | none => colors.getLastD ""

/-- `assign_label` (`map_utils.py` lines 148-159): zero/null gets
"No Access"; otherwise the formatted range of the first matching bin, with
`+` for the top bin and a `0 - upper` fallback.  The display formatting
`format_attribute_value(·, attribute_name)` is abstracted as `fmt`. -/
def assignLabelA (fmt : ℚ → String) (bins : List ℚ) (nb : ℕ)
    (v : Option ℚ) : String :=
  match v with
  | none => "No Access"
  | some x =>
    if x = 0 then "No Access"
    else
      match (List.range nb).find? (fun i => binMem bins nb i x) with
      | some i =>
        if i = nb - 1 then fmt (bins.getD i 0) ++ "+"
        else fmt (bins.getD i 0) ++ " - " ++ fmt (bins.getD (i + 1) 0)
      | none => "0 - " ++ fmt (bins.getD 1 0)

/-- `assign_colors_to_zones` (`map_utils.py` lines 107-163): compute bins
and palette from the column distribution, then write a colour and a label
onto every zone row; returns `(zones, bins, color_list)`. -/
def assign_colors_to_zones (zones : List ZoneRecA) (fmt : ℚ → String) :
    List ZoneRecA × List ℚ × List String :=
  (zones.map (fun z =>
      { z with
        color := some (assignColorA (binsA (zones.map (fun w => w.val)))
          (nbinsA (zones.map (fun w => w.val)))
          (get_color_scale (nbinsA (zones.map (fun w => w.val)))) z.val),
        label := some (assignLabelA fmt (binsA (zones.map (fun w => w.val)))
          (nbinsA (zones.map (fun w => w.val))) z.val) }),
    binsA (zones.map (fun w => w.val)),
    get_color_scale (nbinsA (zones.map (fun w => w.val))))

/-- A time-mapping colour scheme with its five required keys; models the
output of `ensure_time_mapping_keys`, which guarantees all five keys are
present (`map_utils.py` lines 26-41). -/
structure TScheme where
  s0_15 : String
  s15_30 : String
  s30_45 : String
  s45_60 : String
  s60_plus : String
deriving DecidableEq

/-- `DEFAULT_TIME_MAPPING_SCHEME` (`map_utils.py` lines 18-24). -/
def DEFAULT_TIME_MAPPING_SCHEME : TScheme :=
  ⟨"#e3f2fd", "#90caf9", "#42a5f5", "#1976d2", "#0d47a1"⟩

/-- Variant B bin edges (`map_utils.py` lines 175-181): quantiles
[0, .2, .4, .6, .8, 1] of the non-null values, bumped strictly increasing.
No nice-rounding here. -/
def binsB (col : List (Option ℚ)) : List ℚ :=
  repairEdges (([0, 1/5, 2/5, 3/5, 4/5, 1] : List ℚ).map
    (fun q => pquantile (colValues col) q))

/-- Variant B colours, inverted scheme order (`map_utils.py` lines 184-190). -/
def colorsB (scheme : TScheme) : List String :=
  [scheme.s60_plus, scheme.s45_60, scheme.s30_45, scheme.s15_30,
    scheme.s0_15]

/-- Variant B `assign_color` (`map_utils.py` lines 192-203): same membership
tests with 5 fixed classes, defaulting to the FIRST colour. -/
def assignColorB (bins : List ℚ) (colors : List String) (v : Option ℚ) :
    String :=
  match v with
  | none => "#f0f0f0"
  | some x =>
    if x = 0 then "#f0f0f0"
    else
      match (List.range 5).find? (fun i => binMem bins 5 i x) with
      | some i => colors.getD i ""
      | none => colors.getD 0 ""

/-- Variant B `assign_label` (`map_utils.py` lines 205-216). -/
def assignLabelB (bins : List ℚ) (v : Option ℚ) : String :=
  match v with
  | none => "No Access"
  | some x =>
    if x = 0 then "No Access"
    else
      match (List.range 5).find? (fun i => binMem bins 5 i x) with
      | some i => "Class " ++ toString (i + 1)
      | none => "Class 1"

/-- `assign_time_mapping_colors` (`map_utils.py` lines 165-221): when the
column has at least one non-null value, write colours and labels and return
`(zones, bins, colors)`; otherwise return the zone table UNCHANGED with
empty bins and colours. -/
def assign_time_mapping_colors (zones : List ZoneRecA) (scheme : TScheme) :
    List ZoneRecA × List ℚ × List String :=
  if 0 < (colValues (zones.map (fun z => z.val))).length then
    (zones.map (fun z =>
        { z with
          color := some (assignColorB (binsB (zones.map (fun w => w.val)))
            (colorsB scheme) z.val),
          label := some (assignLabelB (binsB (zones.map (fun w => w.val)))
            z.val) }),
      binsB (zones.map (fun w => w.val)), colorsB scheme)
  else (zones, [], [])

/-- Counterexample to C7 as stated: on a table whose only zone has a null
column value, `assign_time_mapping_colors` returns the table unchanged —
the null zone is NOT assigned the neutral colour `#f0f0f0` (it gets no
colour at all). -/
theorem claim_C7_counterexample :
    (assign_time_mapping_colors [⟨1, none, none, none⟩]
        DEFAULT_TIME_MAPPING_SCHEME).1 = [⟨1, none, none, none⟩] ∧
    (⟨1, none, none, none⟩ : ZoneRecA).val = none ∧
    ∀ z ∈ (assign_time_mapping_colors [⟨1, none, none, none⟩]
        DEFAULT_TIME_MAPPING_SCHEME).1, z.color ≠ some "#f0f0f0" := by
  have hout : assign_time_mapping_colors [⟨1, none, none, none⟩]
      DEFAULT_TIME_MAPPING_SCHEME = ([⟨1, none, none, none⟩], [], []) := by
    unfold assign_time_mapping_colors
    rw [if_neg]
    rw [show colValues ((([⟨1, none, none, none⟩] : List ZoneRecA)).map
      (fun z => z.val)) = [] from by
        unfold colValues
        rw [show (([⟨1, none, none, none⟩] : List ZoneRecA).map
          (fun z => z.val)).filterMap id = ([] : List ℚ) from rfl]
        exact List.mergeSort_nil]
    simp
  rw [hout]
  refine ⟨rfl, rfl, ?_⟩
  intro z hz
  rw [List.mem_singleton.mp hz]
  simp

/-- C7 amended: zero/null column values are always classified as
"No Access" with the neutral colour `#f0f0f0` by `assign_colors_to_zones`
unconditionally, and by `assign_time_mapping_colors` PROVIDED the column has
at least one non-null value (on an all-null column Variant B returns the
table without assigning any colours or labels). -/
theorem claim_C7_amended :
    (∀ (zones : List ZoneRecA) (fmt : ℚ → String),
      ∀ z ∈ (assign_colors_to_zones zones fmt).1,
        z.val = none ∨ z.val = some 0 →
          z.color = some "#f0f0f0" ∧ z.label = some "No Access") ∧
    (∀ (zones : List ZoneRecA) (scheme : TScheme),
      (zones.map (fun z => z.val)).filterMap id ≠ [] →
      ∀ z ∈ (assign_time_mapping_colors zones scheme).1,
        z.val = none ∨ z.val = some 0 →
          z.color = some "#f0f0f0" ∧ z.label = some "No Access") := by
  constructor
  · intro zones fmt z hz hv
    obtain ⟨w, _, rfl⟩ := List.mem_map.mp hz
    rcases hv with hnull | hzero
    · have : w.val = none := hnull
      constructor
      · show some (assignColorA _ _ _ w.val) = _
        rw [this]
        rfl
      · show some (assignLabelA fmt _ _ w.val) = _
        rw [this]
        rfl
    · have : w.val = some 0 := hzero
      constructor
      · show some (assignColorA _ _ _ w.val) = _
        rw [this]
        simp [assignColorA]
      · show some (assignLabelA fmt _ _ w.val) = _
        rw [this]
        simp [assignLabelA]
  · intro zones scheme hne z hz hv
    have hpos : 0 < (colValues (zones.map (fun z => z.val))).length := by
      unfold colValues
      rw [List.length_mergeSort]
      rcases h : (zones.map (fun z => z.val)).filterMap id with _ | ⟨a, t⟩
      · exact absurd h hne
      · rw [h]
        simp
    rw [assign_time_mapping_colors, if_pos hpos] at hz
    obtain ⟨w, _, rfl⟩ := List.mem_map.mp hz
    rcases hv with hnull | hzero
    · have : w.val = none := hnull
      constructor
      · show some (assignColorB _ _ w.val) = _
        rw [this]
        rfl
      · show some (assignLabelB _ w.val) = _
        rw [this]
        rfl
    · have : w.val = some 0 := hzero
      constructor
      · show some (assignColorB _ _ w.val) = _
        rw [this]
        simp [assignColorB]
      · show some (assignLabelB _ w.val) = _
        rw [this]
        simp [assignLabelB]

/-- Witness for the amended C7: a zero-valued zone in Variant A and a
null-valued zone in Variant B (the column having one non-null value) both
get the neutral colour and the "No Access" label. -/
theorem claim_C7_witness :
    (∃ z ∈ (assign_colors_to_zones [⟨1, some 0, none, none⟩]
        (fun _ => "")).1,
      z.color = some "#f0f0f0" ∧ z.label = some "No Access") ∧
    (((assign_time_mapping_colors
        [⟨1, some 3, none, none⟩, ⟨2, none, none, none⟩]
        DEFAULT_TIME_MAPPING_SCHEME).1.getD 1 ⟨0, none, none, none⟩).color =
          some "#f0f0f0" ∧
      ((assign_time_mapping_colors
        [⟨1, some 3, none, none⟩, ⟨2, none, none, none⟩]
        DEFAULT_TIME_MAPPING_SCHEME).1.getD 1 ⟨0, none, none, none⟩).label =
          some "No Access") := by
  constructor
  · refine ⟨_, List.mem_map.mpr ⟨⟨1, some 0, none, none⟩, by simp, rfl⟩, ?_⟩
    exact claim_C7_amended.1 [⟨1, some 0, none, none⟩] (fun _ => "") _
      (List.mem_map.mpr ⟨⟨1, some 0, none, none⟩, by simp, rfl⟩)
      (Or.inr rfl)
  · have hpos : 0 < (colValues (([⟨1, some 3, none, none⟩,
        ⟨2, none, none, none⟩] : List ZoneRecA).map
        (fun z => z.val))).length := by
      unfold colValues
      rw [List.length_mergeSort]
      decide
    have hout : (assign_time_mapping_colors
        [⟨1, some 3, none, none⟩, ⟨2, none, none, none⟩]
        DEFAULT_TIME_MAPPING_SCHEME).1 =
        ([⟨1, some 3, none, none⟩, ⟨2, none, none, none⟩] :
          List ZoneRecA).map (fun z =>
          { z with
            color := some (assignColorB
              (binsB (([⟨1, some 3, none, none⟩, ⟨2, none, none, none⟩] :
                List ZoneRecA).map (fun w => w.val)))
              (colorsB DEFAULT_TIME_MAPPING_SCHEME) z.val),
            label := some (assignLabelB
              (binsB (([⟨1, some 3, none, none⟩, ⟨2, none, none, none⟩] :
                List ZoneRecA).map (fun w => w.val))) z.val) }) := by
      rw [assign_time_mapping_colors, if_pos hpos]
    have happ := claim_C7_amended.2 [⟨1, some 3, none, none⟩,
        ⟨2, none, none, none⟩] DEFAULT_TIME_MAPPING_SCHEME (by decide) _
        (by
          rw [hout]
          exact List.mem_map.mpr ⟨⟨2, none, none, none⟩, by simp, rfl⟩)
        (Or.inl rfl)
    rw [hout]
    exact happ

/-- Witness for C10: concrete applications — `nice_number 1236` is an
integer, the magnitude of 1236 is a power of ten at least 1, the first
counterexample-column bin edge is an integer, and the fractional value 1/4
nice-rounds to 0. -/
theorem claim_C10_witness :
    isInt (nice_number 1236 3) ∧
    ((1 : ℚ) ≤ niceMagnitude 1236 3 ∧
      ∃ k : ℕ, niceMagnitude 1236 3 = 10 ^ k) ∧
    isInt ((computeBinsA colC6).2.getD 0 0) ∧
    nice_number (1 / 4) 3 = 0 :=
  ⟨claim_C10.1 1236, claim_C10.2.1 1236,
    claim_C10.2.2.1 colC6 _ (by rw [computeBinsA_colC6]; decide),
    claim_C10.2.2.2 (1 / 4) (by norm_num) (by norm_num)⟩

/-! ### C8: `color_zones_by_origin_travel_time` and its try/except fallback

The body of the function (`map_utils.py` lines 234-318) is modelled as an
`Except`-valued computation: the operations that can raise on a well-typed
numeric input are `int(max_time / time_band)` with `time_band = 0` (a
ZeroDivisionError, or an OverflowError via `int(inf)` on numpy scalars) and
`time_boundaries[-1]` on an empty boundary list (an IndexError, reachable
for negative `time_band`).  The `try`/`except` wrapper
(`map_utils.py` lines 234, 319-321) returns the zone table unchanged on any
error.  `generate_dynamic_color_palette` is display-only and is abstracted
as the `palette` parameter. -/

/-- A zone row as Variant C sees it: `ZONE_ID`, plus the
`destination_zone`/`travel_time` columns produced by the left merge and the
`color`/`label` output columns. -/
structure TZone where
  zone_id : ℤ
  dest : Option ℤ
  tt : Option ℚ
  color : Option String
  label : Option String
deriving DecidableEq

/-- Python `int()` on a real value: truncation toward zero. -/
def itrunc (q : ℚ) : ℤ := if 0 ≤ q then ⌊q⌋ else -⌊-q⌋

/-- `Series.min()` over a non-empty list (0 as junk value on []). -/
def qListMin : List ℚ → ℚ
  | [] => 0
  | x :: xs => xs.foldl min x

/-- `Series.max()` over a non-empty list (0 as junk value on []). -/
def qListMax : List ℚ → ℚ
  | [] => 0
  | x :: xs => xs.foldl max x

/-- `times = skim_df[skim_df["origin_zone"] == origin][["destination_zone",
"travel_time"]]` (`map_utils.py` line 237). -/
def czTimes (skim : Skim) (origin_zone : ℤ) : List (ℤ × ℚ) :=
  (skim.filter (fun r => r.origin_zone = origin_zone)).map
    (fun r => (r.destination_zone, r.travel_time))

/-- The left merge `zones_df.merge(times, left_on="ZONE_ID",
right_on="destination_zone", how="left")` (`map_utils.py` lines 238-240):
a zone with no matching time keeps null merge columns; a zone with several
matches is duplicated, one row per match. -/
def leftMergeTimes (zones : List TZone) (times : List (ℤ × ℚ)) :
    List TZone :=
  zones.flatMap (fun z =>
    if (times.filter (fun p => p.1 = z.zone_id)).isEmpty then
      [{ z with dest := none, tt := none }]
    else (times.filter (fun p => p.1 = z.zone_id)).map
      (fun p => { z with dest := some p.1, tt := some p.2 }))

/-- The merged frame of Variant C. -/
def czMerged (zones : List TZone) (skim : Skim) (o : ℤ) : List TZone :=
  leftMergeTimes zones (czTimes skim o)

/-- `valid_times = merged["travel_time"].dropna()` (`map_utils.py` 243). -/
def czValid (zones : List TZone) (skim : Skim) (o : ℤ) : List ℚ :=
  (czMerged zones skim o).filterMap (fun m => m.tt)

/-- The boundary-building loop (`map_utils.py` lines 266-271): for
`i in range(cnt)` append `i * time_band` and break once the boundary
reaches `max_time`; fuel-structural so it evaluates. -/
def buildBoundsGo (tb : ℤ) (mx : ℚ) : ℕ → ℕ → List ℤ
  | _, 0 => []
  | i, fuel + 1 =>
    ((i : ℤ) * tb) :: (if mx ≤ (((i : ℤ) * tb : ℤ) : ℚ) then []
      else buildBoundsGo tb mx (i + 1) fuel)

/-- `time_boundaries` after the loop, iterated `max_intervals + 1` times. -/
def buildBounds (cnt : ℕ) (tb : ℤ) (mx : ℚ) : List ℤ :=
  buildBoundsGo tb mx 0 cnt

/-- `if time_boundaries[-1] < max_time: append last + time_band`
(`map_utils.py` lines 274-275). -/
def czBounds2 (bounds : List ℤ) (lastb tb : ℤ) (mx : ℚ) : List ℤ :=
  if (lastb : ℚ) < mx then bounds ++ [lastb + tb] else bounds

/-- The time-band label (`map_utils.py` lines 296-302): open-ended for the
last class. -/
def czLabel (bounds : List ℤ) (i : ℕ) : String :=
  if i = bounds.length - 2 then toString (bounds.getD i 0) ++ "+ min"
  else toString (bounds.getD i 0) ++ "-" ++ toString (bounds.getD (i + 1) 0)
    ++ " min"

/-- `get_time_band_color_and_label` (`map_utils.py` lines 282-304): null
time is gray "No data"; otherwise the first class whose upper boundary is
at least `t`, defaulting to the last class. -/
def czAssign (bounds : List ℤ) (colors : List String) (t : Option ℚ) :
    String × String :=
  match t with
  | none => ("#808080", "No data")
  | some tv =>
    match (List.range (bounds.length - 1)).find?
        (fun i => decide (tv ≤ ((bounds.getD (i + 1) 0 : ℤ) : ℚ))) with
    | some i => (colors.getD i "", czLabel bounds i)
    | none => (colors.getD (bounds.length - 2) "",
        czLabel bounds (bounds.length - 2))

/-- The `try` body of `color_zones_by_origin_travel_time`
(`map_utils.py` lines 234-318). -/
def cz_body (zones : List TZone) (skim : Skim) (origin_zone : ℤ)
    (time_band : ℤ) (scheme : TScheme) (palette : ℕ → List String) :
    Except String (List TZone) :=
  if (czValid zones skim origin_zone).isEmpty then
    .ok ((czMerged zones skim origin_zone).map (fun m =>
      { m with color := some "#808080", label := some "No data" }))
  else if qListMax (czValid zones skim origin_zone) -
      qListMin (czValid zones skim origin_zone) ≤ 0 then
    .ok ((czMerged zones skim origin_zone).map (fun m =>
      { m with
        color := some scheme.s60_plus,
        label := some (toString
          (pyround (qListMin (czValid zones skim origin_zone))) ++
          " min") }))
  else if time_band = 0 then
    .error "ZeroDivisionError: division by zero in int(max_time / time_band)"
  else
    match (buildBounds
        ((itrunc (qListMax (czValid zones skim origin_zone) /
          (time_band : ℚ)) + 1 + 1).toNat) time_band
        (qListMax (czValid zones skim origin_zone))).getLast? with
    | none => .error "IndexError: list index out of range"
    | some lastb =>
      .ok ((czMerged zones skim origin_zone).map (fun m =>
        { m with
          color := some (czAssign (czBounds2 (buildBounds
              ((itrunc (qListMax (czValid zones skim origin_zone) /
                (time_band : ℚ)) + 1 + 1).toNat) time_band
              (qListMax (czValid zones skim origin_zone))) lastb time_band
              (qListMax (czValid zones skim origin_zone)))
            (palette ((czBounds2 (buildBounds
              ((itrunc (qListMax (czValid zones skim origin_zone) /
                (time_band : ℚ)) + 1 + 1).toNat) time_band
              (qListMax (czValid zones skim origin_zone))) lastb time_band
              (qListMax (czValid zones skim origin_zone))).length - 1))
            m.tt).1,
          label := some (czAssign (czBounds2 (buildBounds
              ((itrunc (qListMax (czValid zones skim origin_zone) /
                (time_band : ℚ)) + 1 + 1).toNat) time_band
              (qListMax (czValid zones skim origin_zone))) lastb time_band
              (qListMax (czValid zones skim origin_zone)))
            (palette ((czBounds2 (buildBounds
              ((itrunc (qListMax (czValid zones skim origin_zone) /
                (time_band : ℚ)) + 1 + 1).toNat) time_band
              (qListMax (czValid zones skim origin_zone))) lastb time_band
              (qListMax (czValid zones skim origin_zone))).length - 1))
            m.tt).2 }))

/-- `color_zones_by_origin_travel_time` (`map_utils.py` lines 223-321):
the body wrapped in `try`/`except`, the handler returning the zone table
unchanged. -/
def color_zones_by_origin_travel_time (zones : List TZone) (skim : Skim)
    (origin_zone time_band : ℤ) (scheme : TScheme)
    (palette : ℕ → List String) : List TZone :=
  match cz_body zones skim origin_zone time_band scheme palette with
  | .ok r => r
  | .error _ => zones

/-- C8: whenever the classification body raises internally, the exception
does not propagate: `color_zones_by_origin_travel_time` returns the
unmodified zone table (with no colors attached by it). -/
theorem claim_C8 (zones : List TZone) (skim : Skim)
    (origin_zone time_band : ℤ) (scheme : TScheme)
    (palette : ℕ → List String) (e : String)
    (h : cz_body zones skim origin_zone time_band scheme palette =
      .error e) :
    color_zones_by_origin_travel_time zones skim origin_zone time_band
      scheme palette = zones := by
  unfold color_zones_by_origin_travel_time
  rw [h]

/-- The C8 witness zone table and skim: origin 1 reaches zone 1 with times
0 and 10, and `time_band = 0` makes the body raise. -/
def tz1 : TZone := ⟨1, none, none, none, none⟩

/-- Skim for the C8 witness. -/
def skimC8 : Skim := [⟨1, 1, 0⟩, ⟨1, 1, 10⟩]

/-- Palette stub for the C8 witness. -/
def paletteC8 : ℕ → List String := fun n => List.replicate n "#000000"

/-- Witness for C8: with `time_band = 0` the body genuinely errors (the
division-by-zero point is reached) and the wrapper returns the zone table
unchanged. -/
theorem claim_C8_witness :
    cz_body [tz1] skimC8 1 0 DEFAULT_TIME_MAPPING_SCHEME paletteC8 =
      .error
        "ZeroDivisionError: division by zero in int(max_time / time_band)" ∧
    color_zones_by_origin_travel_time [tz1] skimC8 1 0
      DEFAULT_TIME_MAPPING_SCHEME paletteC8 = [tz1] := by
  have hvalid : czValid [tz1] skimC8 1 = [0, 10] := rfl
  have herr : cz_body [tz1] skimC8 1 0 DEFAULT_TIME_MAPPING_SCHEME
      paletteC8 = .error
      "ZeroDivisionError: division by zero in int(max_time / time_band)" := by
    unfold cz_body
    rw [hvalid]
    rw [show ([(0 : ℚ), 10]).isEmpty = false from rfl]
    rw [show qListMax [(0 : ℚ), 10] = 10 from rfl,
      show qListMin [(0 : ℚ), 10] = 0 from rfl]
    rw [if_neg (by norm_num), if_neg (by norm_num), if_pos rfl]
  exact ⟨herr, claim_C8 [tz1] skimC8 1 0 DEFAULT_TIME_MAPPING_SCHEME
    paletteC8 _ herr⟩

end Lagos
